import Mathlib

/-!
Verification development for the directory-tree walker / resource classifier
of `iphone/cli/lib/gather.js` (classes `Result` and `Walker`).

The JavaScript code is shallowly embedded as follows:

* JS strings are Lean `String`s; the character-level work (regular-expression
  matching, `String.prototype.replace` with a string pattern) is done on the
  underlying `List Char` (`String.data`).
* A JS `Map` keyed by relative path is an insertion-ordered association list
  (`JsMap`); `Map.prototype.set` updates in place when the key is present and
  appends otherwise, `Map.prototype.delete` removes the entry.  A JS `Set` of
  strings is an insertion-ordered duplicate-free list.
* The four regular expressions of the file (`FILENAME_REGEXP`,
  `LAUNCH_IMAGE_REGEXP`, `LAUNCH_LOGO_REGEXP`, `BUNDLE_FILE_REGEXP`) and the
  constructed app-icon pattern are embedded as executable matchers.  Each
  matcher's doc comment states the regex it implements.  In each of these
  patterns the alternatives start with distinct characters that cannot begin
  the rest of the pattern, so greedy left-to-right matching without
  backtracking coincides with the regex semantics; `.` does not match a
  line terminator (LF, CR, U+2028, U+2029), captured by the `jsDot` class.
  The constructed app-icon pattern escapes only the dots of the icon stem
  (`dotEscape`); the model covers the stems whose escaped form reads as a
  sequence of single-character literal atoms (`literalAtoms`), i.e. stems
  free of regex syntax characters other than `.` — for a stem whose escaped
  form still contains live regex syntax the modeled matcher declines, and
  the theorems about the pattern carry that restriction as a hypothesis.
* The filesystem is a value of the inductive type `FSEntry`; entries whose
  directory listing (`fs.readdir`) or symlink status lookup (`fs.stat`) fails
  are represented by the constructors `badDir` / `badSymlink`, and the
  traversal runs in `Except FsError`.  The JS traversal launches the visits of
  one directory's entries concurrently (`Promise.all`) but each visit mutates
  only its own keys of the shared `Result`; the embedding performs the visits
  sequentially in listing order, and the first rejection aborts the walk just
  as `Promise.all` rejects the combined promise.
* The external HTML analyzer (`jsanalyze.analyzeHtmlFile`) is a parameter
  `analyzeHtml : String → String → List String` (source path, relative
  directory ↦ referenced script paths).
-/

/-! ## Character-level helpers -/

/-- The JS regex character class `\w` (no `u` flag): ASCII letters, digits
and underscore. -/
def isWordChar (c : Char) : Bool := c.isAlphanum || c == '_'

/-- What the JS regex `.` matches (no `s` flag): any character except the
line terminators LF, CR, U+2028 and U+2029. -/
def jsDot (c : Char) : Bool :=
  !(c == '\n' || c == '\r' || c == '\u2028' || c == '\u2029')

/-- Split a character list at its **last** `'.'`, returning the parts before
and after it.  `none` when the list contains no `'.'`. -/
def splitLastDotList : List Char → Option (List Char × List Char)
  | [] => none
  | c :: rest =>
    match splitLastDotList rest with
    | some (pre, suf) => some (c :: pre, suf)
    | none => if c == '.' then some ([], rest) else none

/-- `FILENAME_REGEXP = /^(.*)\.(\w+)$/` (gather.js line 8).  A match splits
the name at the last dot: the extension part must be nonempty and consist of
`\w` characters only, and the stem captured by `(.*)` cannot contain a line
terminator.  Returns `(stem, extension)`. -/
def filenameMatch (name : String) : Option (String × String) :=
  match splitLastDotList name.data with
  | some (st, ex) =>
    if !ex.isEmpty && ex.all isWordChar && st.all jsDot then
      some (⟨st⟩, ⟨ex⟩)
    else none
  | none => none

/-- Strip a literal off the front of a character list. -/
def stripLit (lit s : List Char) : Option (List Char) :=
  if lit.isPrefixOf s then some (s.drop lit.length) else none

/-- Consume the first alternative of `lits` that is a front literal of `s`,
if any (used for optional groups such as `(-(Landscape|Portrait))?`). -/
def optAlt (lits : List (List Char)) (s : List Char) : List Char :=
  match lits.find? (fun l => l.isPrefixOf s) with
  | some l => s.drop l.length
  | none => s

/-- Consume an optional `-[0-9]+h` group. -/
def optNumH (s : List Char) : List Char :=
  match s with
  | '-' :: rest =>
    let ds := rest.takeWhile Char.isDigit
    if ds.isEmpty then s
    else
      match rest.drop ds.length with
      | 'h' :: tail => tail
      | _ => s
  | _ => s

/-- Consume an optional `@[2-9]x` group. -/
def optScale29 (s : List Char) : List Char :=
  match s with
  | '@' :: c :: 'x' :: rest => if '2' ≤ c && c ≤ '9' then rest else s
  | _ => s

/-- `LAUNCH_IMAGE_REGEXP =
`/^(Default(-(Landscape|Portrait))?(-[0-9]+h)?(@[2-9]x)?)\.png$/`
(gather.js line 9); only whether it matches is ever used. -/
def launchImageTest (name : String) : Bool :=
  match stripLit "Default".data name.data with
  | none => false
  | some r =>
    optScale29 (optNumH (optAlt ["-Landscape".data, "-Portrait".data] r)) == ".png".data

/-- `LAUNCH_LOGO_REGEXP = /^LaunchLogo(?:@([23])x)?(?:~(iphone|ipad))?\.(?:png|jpg)$/`
(gather.js line 10).  On a match, returns the two captures
(scale digit, device), each `none` when its optional group is absent. -/
def launchLogoMatch (name : String) : Option (Option String × Option String) :=
  match stripLit "LaunchLogo".data name.data with
  | none => none
  | some r0 =>
    let p1 : Option String × List Char :=
      match r0 with
      | '@' :: c :: 'x' :: rest => if c == '2' || c == '3' then (some ⟨[c]⟩, rest) else (none, r0)
      | _ => (none, r0)
    let p2 : Option String × List Char :=
      match stripLit "~iphone".data p1.2 with
      | some rest => (some "iphone", rest)
      | none =>
        match stripLit "~ipad".data p1.2 with
        | some rest => (some "ipad", rest)
        | none => (none, p1.2)
    if p2.2 == ".png".data || p2.2 == ".jpg".data then some (p1.1, p2.1) else none

/-- The characters that are syntax in a JS regular expression pattern; any
pattern character outside this set stands for itself.  (A lone brace or `]`
is in fact literal in JS, but excluding them only shrinks the modeled domain,
it never makes the model claim something false of a pattern.) -/
def regexSyntaxChar (c : Char) : Bool :=
  c == '^' || c == '$' || c == '\\' || c == '.' || c == '*' || c == '+' ||
    c == '?' || c == '(' || c == ')' || c == '[' || c == ']' ||
    c == '\x7b' || c == '\x7d' || c == '|'

/-- `base.replace(/\./g, '\\.')` (gather.js line 80): escape exactly the dots
of the app-icon stem, and nothing else. -/
def dotEscape : List Char → List Char
  | [] => []
  | c :: t => if c == '.' then '\\' :: '.' :: dotEscape t else c :: dotEscape t

/-- Read a regex pattern body as a sequence of single-character literal
atoms: a character that is not regex syntax stands for itself, and a
backslash followed by a syntax character stands for that character.  A body
using any further regex syntax (a quantifier, group, class, other backslash
escape, …) is outside this model: `none`. -/
def literalAtoms : List Char → Option (List Char)
  | [] => some []
  | c :: t =>
    if c == '\\' then
      match t with
      | [] => none
      | d :: t2 =>
        if regexSyntaxChar d then (literalAtoms t2).map (fun l => d :: l) else none
    else if regexSyntaxChar c then none
    else (literalAtoms t).map (fun l => c :: l)

/-- Match a sequence of literal atoms `lits` as an anchored prefix, then the
greedy capture `(.*)` and the final `\.png$`: the capture is everything
between the prefix and the trailing `.png` and cannot contain a line
terminator. -/
def literalCaptureTag (lits n : List Char) : Option String :=
  if lits.isPrefixOf n then
    let rest := n.drop lits.length
    if ".png".data.isSuffixOf rest then
      let mid := rest.take (rest.length - 4)
      if mid.all jsDot then some ⟨mid⟩ else none
    else none
  else none

/-- The app-icon pattern built by the `Walker` constructor (gather.js line 80):
`new RegExp('^' + base.replace(/\./g, '\\.') + '(.*)\\.png$')` where `base` is
the stem of the configured icon filename.  Only the dots of the stem are
escaped; when the escaped stem reads as a sequence of literal atoms (which it
does exactly for stems free of other regex syntax characters), the pattern
matches the stem literally followed by the captured suffix and `.png`, and
the capture is returned as the icon tag.  A stem whose escaped form still
contains live regex syntax is outside this model and the modeled matcher
declines it. -/
def appIconTag (base name : String) : Option String :=
  match literalAtoms (dotEscape base.data) with
  | some lits => literalCaptureTag lits name.data
  | none => none

/-- One position of `BUNDLE_FILE_REGEXP`: the remainder starts with
`.bundle/` followed by at least one character `.` matches. -/
def bundleCore (s : List Char) : Bool :=
  ".bundle/".data.isPrefixOf s &&
    match s.drop 8 with
    | d :: _ => jsDot d
    | [] => false

/-- Scan for `BUNDLE_FILE_REGEXP = /.+\.bundle\/.+/` (gather.js line 11),
which is unanchored: the string matches iff somewhere a character `.` matches
is followed by `.bundle/` and then another such character. -/
def bundleTestList : List Char → Bool
  | [] => false
  | c :: rest => (jsDot c && bundleCore rest) || bundleTestList rest

/-- `relPath.match(BUNDLE_FILE_REGEXP)` seen as a Boolean. -/
def bundleTest (s : String) : Bool := bundleTestList s.data

/-- `String.prototype.replace` with a **string** pattern replaces only the
leftmost occurrence of the pattern (or nothing when the pattern does not
occur). -/
def replaceFirstList (pat rep : List Char) : List Char → List Char
  | [] => if pat.isPrefixOf ([] : List Char) then rep else []
  | c :: rest =>
    if pat.isPrefixOf (c :: rest) then rep ++ (c :: rest).drop pat.length
    else c :: replaceFirstList pat rep rest

/-- JS `s.replace(pat, rep)` for a string pattern. -/
def jsReplaceFirst (s pat rep : String) : String :=
  ⟨replaceFirstList pat.data rep.data s.data⟩

/-- JS `p && p.test(x)` for an optional RegExp-like predicate. -/
def testOpt (p : Option (String → Bool)) (x : String) : Bool :=
  match p with
  | some f => f x
  | none => false

/-! ## The `Result` data structure -/

/-- The `info` record built in `Walker._visitFile` (gather.js lines 176–181),
possibly extended with the captures `tag` (app icon) or `scale`/`device`
(launch logo); absent JS properties are `none`. -/
structure FileRecord where
  name : String
  ext : Option String
  src : String
  dest : String
  tag : Option String
  scale : Option String
  device : Option String
deriving DecidableEq

/-- A JS `Map` from relative path to `FileRecord`: an insertion-ordered
association list. -/
abbrev JsMap := List (String × FileRecord)

/-- `Map.prototype.has`. -/
def JsMap.has (m : JsMap) (k : String) : Bool := m.any (fun p => p.1 == k)

/-- `Map.prototype.get` (first entry with the key). -/
def JsMap.get? (m : JsMap) (k : String) : Option FileRecord :=
  (m.find? (fun p => p.1 == k)).map Prod.snd

/-- `Map.prototype.set`: overwrite in place when the key is present, append
otherwise. -/
def JsMap.set (m : JsMap) (k : String) (v : FileRecord) : JsMap :=
  if m.has k then m.map (fun p => if p.1 == k then (k, v) else p) else m ++ [(k, v)]

/-- `Map.prototype.delete`. -/
def JsMap.del (m : JsMap) (k : String) : JsMap := m.filter (fun p => p.1 != k)

/-- `Set.prototype.add` for a string set (insertion-ordered, no duplicates). -/
def jsSetAdd (s : List String) (x : String) : List String :=
  if x ∈ s then s else s ++ [x]

/-- The `Result` class (gather.js lines 13–63): seven path-keyed buckets plus
the set of script paths referenced by gathered HTML files. -/
structure Result where
  appIcons : JsMap
  cssFiles : JsMap
  jsFiles : JsMap
  launchImages : JsMap
  launchLogos : JsMap
  imageAssets : JsMap
  resourcesToCopy : JsMap
  htmlJsFiles : List String
deriving DecidableEq

/-- `new Result()`. -/
def Result.empty : Result := ⟨[], [], [], [], [], [], [], []⟩

/-- The loop body of `dontProcessJsFilesReferencedFromHTML` (gather.js lines
30–33): when `file` is a `jsFiles` key, copy its record into
`resourcesToCopy` and delete it from `jsFiles`. -/
def moveStep (acc : Result) (file : String) : Result :=
  match JsMap.get? acc.jsFiles file with
  | some v =>
    { acc with
        resourcesToCopy := JsMap.set acc.resourcesToCopy file v,
        jsFiles := JsMap.del acc.jsFiles file }
  | none => acc

/-- `Result.dontProcessJsFilesReferencedFromHTML` (gather.js lines 28–35):
every markup-referenced script path that is currently a `jsFiles` key is moved,
record unchanged, into `resourcesToCopy`. -/
def Result.dontProcessJsFilesReferencedFromHTML (r : Result) : Result :=
  r.htmlJsFiles.foldl moveStep r

/-- `new Map(entries)`: insert every listed pair in order into a fresh map. -/
def jsNewMap (entries : List (String × FileRecord)) : JsMap :=
  entries.foldl (fun m kv => JsMap.set m kv.1 kv.2) []

/-- `new Map([ ...a, ...b ])`, the merge step of `Result.merge`. -/
def jsMapUnion (a b : JsMap) : JsMap := jsNewMap (a ++ b)

/-- `new Set(elems)`. -/
def jsNewSet (xs : List String) : List String := xs.foldl jsSetAdd []

/-- `new Set([ ...a, ...b ])`. -/
def jsSetUnion (a b : List String) : List String := jsNewSet (a ++ b)

/-- One bucket of `Result.merge`: drop the empty source maps, then fold the
remaining ones with `new Map([ ...combined, ...list ])` starting from the
fresh result's empty map (the `reduce` of gather.js lines 47–49). -/
def mergeBucketMaps (results : List Result) (proj : Result → JsMap) : JsMap :=
  let maps := (results.map proj).filter (fun m => m.length != 0)
  if maps.length != 0 then maps.foldl jsMapUnion [] else []

/-- The `htmlJsFiles` part of `Result.merge` (gather.js lines 52–60). -/
def mergeHtmlSets (results : List Result) : List String :=
  let ss := (results.map (fun r => r.htmlJsFiles)).filter (fun s => s.length != 0)
  if ss.length != 0 then ss.foldl jsSetUnion [] else []

/-- `Result.merge` (gather.js lines 41–62). -/
def Result.merge (results : List Result) : Result :=
  { appIcons := mergeBucketMaps results (fun r => r.appIcons)
    cssFiles := mergeBucketMaps results (fun r => r.cssFiles)
    jsFiles := mergeBucketMaps results (fun r => r.jsFiles)
    launchImages := mergeBucketMaps results (fun r => r.launchImages)
    launchLogos := mergeBucketMaps results (fun r => r.launchLogos)
    imageAssets := mergeBucketMaps results (fun r => r.imageAssets)
    resourcesToCopy := mergeBucketMaps results (fun r => r.resourcesToCopy)
    htmlJsFiles := mergeHtmlSets results }

/-! ## The `Walker` -/

/-- The configuration fixed by the `Walker` constructor (gather.js lines
74–81); `appIconBase` is the stem from which the app-icon pattern is built
(`none` when the configured icon filename does not match `FILENAME_REGEXP`,
in which case `this.appIconRegExp` is `null`). -/
structure WalkerCfg where
  useAppThinning : Bool
  ignoreDirs : Option (String → Bool)
  ignoreFiles : Option (String → Bool)
  appIconBase : Option String

/-- The `Walker` constructor: derive the app-icon base from
`options.tiappIcon` via `FILENAME_REGEXP`. -/
def Walker.ofOptions (tiappIcon : String) (useAppThinning : Bool)
    (ignoreDirs ignoreFiles : Option (String → Bool)) : WalkerCfg :=
  { useAppThinning := useAppThinning
    ignoreDirs := ignoreDirs
    ignoreFiles := ignoreFiles
    appIconBase := (filenameMatch tiappIcon).map Prod.fst }

/-- `relPath.split('/').slice(0, -1).join('/')`: the relative directory handed
to the HTML analyzer. -/
def relDirOf (relPath : String) : String :=
  String.intercalate "/" ((relPath.splitOn "/").dropLast)

/-- `from.replace((origSrc || src) + '/', prefix ? prefix + '/' : '')`
(gather.js line 182). -/
def relPathOf (fromPath src : String) (origSrc pfx : Option String) : String :=
  jsReplaceFirst fromPath ((origSrc.getD src) ++ "/")
    (match pfx with | some p => p ++ "/" | none => "")

/-- The `info` object of `Walker._visitFile` (gather.js lines 175–181): stem
and extension from `FILENAME_REGEXP`, or the whole name and no extension when
it does not match. -/
def mkInfo (name fromPath toPath : String) : FileRecord :=
  match filenameMatch name with
  | some (st, ex) => ⟨st, some ex, fromPath, toPath, none, none, none⟩
  | none => ⟨name, none, fromPath, toPath, none, none, none⟩

/-- The shared tail of the `png`/`jpg` cases of `Walker._visitFile`
(gather.js lines 211–228): launch-logo test, then app thinning with the
bundle-directory exclusion, else plain copy. -/
def sharedImage (cfg : WalkerCfg) (results : Result) (relPath : String)
    (info : FileRecord) (name : String) : Result :=
  match launchLogoMatch name with
  | some (sc, dev) =>
    { results with
        launchLogos := JsMap.set results.launchLogos relPath
          { info with scale := sc, device := dev } }
  | none =>
    if cfg.useAppThinning && !bundleTest relPath then
      { results with imageAssets := JsMap.set results.imageAssets relPath info }
    else
      { results with resourcesToCopy := JsMap.set results.resourcesToCopy relPath info }

/-- The root-level-only part of the `png` case of `Walker._visitFile`
(gather.js lines 193–209): app-icon pattern first, then launch-image pattern,
then fall through to the shared png/jpg tail. -/
def pngCase (cfg : WalkerCfg) (results : Result) (relPath : String)
    (info : FileRecord) (name : String) (origSrc : Option String) : Result :=
  if origSrc.isNone then
    match cfg.appIconBase.bind (fun b => appIconTag b name) with
    | some t =>
      { results with
          appIcons := JsMap.set results.appIcons relPath { info with tag := some t } }
    | none =>
      if launchImageTest name then
        { results with launchImages := JsMap.set results.launchImages relPath info }
      else sharedImage cfg results relPath info name
  else sharedImage cfg results relPath info name

/-- `Walker._visitFile` (gather.js lines 169–239).  The JS `switch` on
`parts && parts[2]` is a chain of strict comparisons of the extension. -/
def Walker.visitFile (cfg : WalkerCfg) (analyzeHtml : String → String → List String)
    (results : Result) (fromPath toPath name src : String)
    (origSrc pfx : Option String) : Result :=
  if testOpt cfg.ignoreFiles name then results
  else
    let info := mkInfo name fromPath toPath
    let relPath := relPathOf fromPath src origSrc pfx
    let extCase := (filenameMatch name).map Prod.snd
    if extCase = some "js" then
      { results with jsFiles := JsMap.set results.jsFiles relPath info }
    else if extCase = some "css" then
      { results with cssFiles := JsMap.set results.cssFiles relPath info }
    else if extCase = some "png" then
      pngCase cfg results relPath info name origSrc
    else if extCase = some "jpg" then
      sharedImage cfg results relPath info name
    else if extCase = some "html" then
      { results with
          htmlJsFiles := (analyzeHtml fromPath (relDirOf relPath)).foldl jsSetAdd results.htmlJsFiles,
          resourcesToCopy := JsMap.set results.resourcesToCopy relPath info }
    else
      { results with resourcesToCopy := JsMap.set results.resourcesToCopy relPath info }

/-! ## The filesystem model and the traversal -/

/-- One directory entry of the modeled filesystem.  `badDir` is a directory
whose `fs.readdir` fails; `badSymlink` is a symlink whose `fs.stat` fails;
`symlinkFile`/`symlinkDir` are symlinks whose `fs.stat` resolves to a file
resp. a directory (with the listed children). -/
inductive FSEntry where
  | file (name : String)
  | dir (name : String) (children : List FSEntry)
  | symlinkFile (name : String)
  | symlinkDir (name : String) (children : List FSEntry)
  | badDir (name : String)
  | badSymlink (name : String)

/-- `dirent.name`. -/
def FSEntry.name : FSEntry → String
  | .file n => n
  | .dir n _ => n
  | .symlinkFile n => n
  | .symlinkDir n _ => n
  | .badDir n => n
  | .badSymlink n => n

/-- A filesystem failure surfaced during the walk. -/
inductive FsError where
  | readdirFailed (path : String)
  | statFailed (path : String)
deriving DecidableEq

mutual

/-- `Walker._walkDir` (gather.js lines 122–126) applied to the listing of
`src`: visit every entry, threading the shared `Result`; the first failure
aborts the walk. -/
def walkDirM (cfg : WalkerCfg) (analyzeHtml : String → String → List String)
    (results : Result) (children : List FSEntry) (src dest : String)
    (ignore : Option (String → Bool)) (origSrc pfx : Option String) :
    Except FsError Result :=
  match children with
  | [] => .ok results
  | e :: rest =>
    match visitListingM cfg analyzeHtml results e src dest ignore origSrc pfx with
    | .error err => .error err
    | .ok r => walkDirM cfg analyzeHtml r rest src dest ignore origSrc pfx

/-- `Walker._visitListing` (gather.js lines 137–158): call-scoped ignore test,
symlink resolution by `fs.stat`, directory pruning by `ignoreDirs` and
recursion (with `null` ignore and `origSrc || src`), file classification. -/
def visitListingM (cfg : WalkerCfg) (analyzeHtml : String → String → List String)
    (results : Result) (e : FSEntry) (src dest : String)
    (ignore : Option (String → Bool)) (origSrc pfx : Option String) :
    Except FsError Result :=
  if testOpt ignore e.name then .ok results
  else
    match e with
    | .badSymlink n => .error (.statFailed (src ++ "/" ++ n))
    | .dir n children =>
      if testOpt cfg.ignoreDirs n then .ok results
      else
        walkDirM cfg analyzeHtml results children (src ++ "/" ++ n) (dest ++ "/" ++ n)
          none (some (origSrc.getD src)) pfx
    | .symlinkDir n children =>
      if testOpt cfg.ignoreDirs n then .ok results
      else
        walkDirM cfg analyzeHtml results children (src ++ "/" ++ n) (dest ++ "/" ++ n)
          none (some (origSrc.getD src)) pfx
    | .badDir n =>
      if testOpt cfg.ignoreDirs n then .ok results
      else .error (.readdirFailed (src ++ "/" ++ n))
    | .file n =>
      .ok (Walker.visitFile cfg analyzeHtml results (src ++ "/" ++ n) (dest ++ "/" ++ n)
        n src origSrc pfx)
    | .symlinkFile n =>
      .ok (Walker.visitFile cfg analyzeHtml results (src ++ "/" ++ n) (dest ++ "/" ++ n)
        n src origSrc pfx)

end

/-- `Walker.walk` (gather.js lines 97–105).  `root = none` models a source
path for which `fs.exists` is false (this includes a broken symlink, which
`fs.exists` follows): an empty `Result`, not an error.  A root whose listing
cannot be produced (a plain file, or a directory whose `readdir` fails)
surfaces the filesystem error. -/
def Walker.walk (cfg : WalkerCfg) (analyzeHtml : String → String → List String)
    (root : Option FSEntry) (src dest : String)
    (ignore : Option (String → Bool)) : Except FsError Result :=
  match root with
  | none => .ok Result.empty
  | some (.dir _ children) => walkDirM cfg analyzeHtml Result.empty children src dest ignore none none
  | some (.symlinkDir _ children) => walkDirM cfg analyzeHtml Result.empty children src dest ignore none none
  | some (.badDir _) => .error (.readdirFailed src)
  | some (.badSymlink _) => .ok Result.empty
  | some (.file _) => .error (.readdirFailed src)
  | some (.symlinkFile _) => .error (.readdirFailed src)

/-! ### Unfolding equations of `visitListingM`, one per entry kind -/

theorem visitListingM_file (cfg : WalkerCfg) (analyzeHtml : String → String → List String)
    (res : Result) (n src dest : String) (ig : Option (String → Bool))
    (origSrc pfx : Option String) :
    visitListingM cfg analyzeHtml res (.file n) src dest ig origSrc pfx =
      if testOpt ig n then .ok res
      else .ok (Walker.visitFile cfg analyzeHtml res (src ++ "/" ++ n) (dest ++ "/" ++ n)
        n src origSrc pfx) := by
  rw [visitListingM.eq_def]
  rfl

theorem visitListingM_symlinkFile (cfg : WalkerCfg) (analyzeHtml : String → String → List String)
    (res : Result) (n src dest : String) (ig : Option (String → Bool))
    (origSrc pfx : Option String) :
    visitListingM cfg analyzeHtml res (.symlinkFile n) src dest ig origSrc pfx =
      if testOpt ig n then .ok res
      else .ok (Walker.visitFile cfg analyzeHtml res (src ++ "/" ++ n) (dest ++ "/" ++ n)
        n src origSrc pfx) := by
  rw [visitListingM.eq_def]
  rfl

theorem visitListingM_dir (cfg : WalkerCfg) (analyzeHtml : String → String → List String)
    (res : Result) (n : String) (children : List FSEntry) (src dest : String)
    (ig : Option (String → Bool)) (origSrc pfx : Option String) :
    visitListingM cfg analyzeHtml res (.dir n children) src dest ig origSrc pfx =
      if testOpt ig n then .ok res
      else if testOpt cfg.ignoreDirs n then .ok res
      else walkDirM cfg analyzeHtml res children (src ++ "/" ++ n) (dest ++ "/" ++ n)
        none (some (origSrc.getD src)) pfx := by
  rw [visitListingM.eq_def]
  rfl

theorem visitListingM_symlinkDir (cfg : WalkerCfg) (analyzeHtml : String → String → List String)
    (res : Result) (n : String) (children : List FSEntry) (src dest : String)
    (ig : Option (String → Bool)) (origSrc pfx : Option String) :
    visitListingM cfg analyzeHtml res (.symlinkDir n children) src dest ig origSrc pfx =
      if testOpt ig n then .ok res
      else if testOpt cfg.ignoreDirs n then .ok res
      else walkDirM cfg analyzeHtml res children (src ++ "/" ++ n) (dest ++ "/" ++ n)
        none (some (origSrc.getD src)) pfx := by
  rw [visitListingM.eq_def]
  rfl

theorem visitListingM_badDir (cfg : WalkerCfg) (analyzeHtml : String → String → List String)
    (res : Result) (n src dest : String) (ig : Option (String → Bool))
    (origSrc pfx : Option String) :
    visitListingM cfg analyzeHtml res (.badDir n) src dest ig origSrc pfx =
      if testOpt ig n then .ok res
      else if testOpt cfg.ignoreDirs n then .ok res
      else .error (.readdirFailed (src ++ "/" ++ n)) := by
  rw [visitListingM.eq_def]
  rfl

theorem visitListingM_badSymlink (cfg : WalkerCfg) (analyzeHtml : String → String → List String)
    (res : Result) (n src dest : String) (ig : Option (String → Bool))
    (origSrc pfx : Option String) :
    visitListingM cfg analyzeHtml res (.badSymlink n) src dest ig origSrc pfx =
      if testOpt ig n then .ok res
      else .error (.statFailed (src ++ "/" ++ n)) := by
  rw [visitListingM.eq_def]
  rfl

/-! ## Bucket identifiers -/

/-- Names of the seven path-keyed bucket mappings of a `Result` (the
`mapFields` list of gather.js line 43). -/
inductive BucketId where
  | appIcons
  | cssFiles
  | jsFiles
  | launchImages
  | launchLogos
  | imageAssets
  | resourcesToCopy
deriving DecidableEq, Fintype

/-- Select one bucket of a `Result`. -/
def Result.bucket (r : Result) : BucketId → JsMap
  | .appIcons => r.appIcons
  | .cssFiles => r.cssFiles
  | .jsFiles => r.jsFiles
  | .launchImages => r.launchImages
  | .launchLogos => r.launchLogos
  | .imageAssets => r.imageAssets
  | .resourcesToCopy => r.resourcesToCopy

/-- Each bucket of a merged `Result`, through the bucket selector. -/
theorem Result.bucket_merge (results : List Result) (bid : BucketId) :
    (Result.merge results).bucket bid = mergeBucketMaps results (fun r => r.bucket bid) := by
  cases bid <;> rfl

/-! ## Lemmas about the JS `Map` model -/

theorem JsMap.get?_nil (k : String) : JsMap.get? [] k = none := rfl

theorem JsMap.get?_cons (p : String × FileRecord) (t : JsMap) (k : String) :
    JsMap.get? (p :: t) k = if p.1 == k then some p.2 else JsMap.get? t k := by
  simp only [JsMap.get?, List.find?]
  cases p.1 == k <;> simp

theorem JsMap.has_cons (p : String × FileRecord) (t : JsMap) (k : String) :
    JsMap.has (p :: t) k = (p.1 == k || JsMap.has t k) := by
  simp [JsMap.has]

theorem JsMap.isSome_get? (m : JsMap) (k : String) :
    (JsMap.get? m k).isSome = JsMap.has m k := by
  induction m with
  | nil => rfl
  | cons p t ih =>
    rw [JsMap.get?_cons, JsMap.has_cons]
    cases hp : p.1 == k <;> simp [hp, ih]

theorem JsMap.get?_eq_none_of_has (m : JsMap) (k : String)
    (h : JsMap.has m k = false) : JsMap.get? m k = none := by
  have := JsMap.isSome_get? m k
  rw [h] at this
  exact Option.not_isSome_iff_eq_none.mp (by simp [this])

theorem JsMap.get?_mapRepl (m : JsMap) (a k : String) (v : FileRecord) :
    JsMap.get? (m.map (fun p => if p.1 == a then (a, v) else p)) k =
      if k = a then (if JsMap.has m a then some v else none) else JsMap.get? m k := by
  induction m with
  | nil => by_cases h : k = a <;> simp [JsMap.get?, JsMap.has, h]
  | cons p t ih =>
    simp only [beq_iff_eq] at ih ⊢
    by_cases hp : p.1 = a
    · by_cases hk : k = a
      · subst hk
        simp [List.map_cons, JsMap.get?_cons, JsMap.has_cons, hp, ih]
      · have h1 : (a == k) = false := by simp [Ne.symm hk]
        simp [List.map_cons, JsMap.get?_cons, JsMap.has_cons, hp, h1, hk, ih]
    · by_cases hk : k = a
      · subst hk
        have h1 : (p.1 == k) = false := by simp [hp]
        simp [List.map_cons, JsMap.get?_cons, JsMap.has_cons, h1, hp, ih]
      · by_cases hpk : p.1 = k
        · simp [List.map_cons, JsMap.get?_cons, hp, hpk, hk]
        · simp [List.map_cons, JsMap.get?_cons, hp, hpk, hk, ih]

theorem JsMap.get?_append (m₁ m₂ : JsMap) (k : String) :
    JsMap.get? (m₁ ++ m₂) k = (JsMap.get? m₁ k).or (JsMap.get? m₂ k) := by
  simp only [JsMap.get?, List.find?_append]
  cases List.find? (fun p => p.1 == k) m₁ <;> simp

theorem JsMap.get?_single (a k : String) (v : FileRecord) :
    JsMap.get? [(a, v)] k = if a == k then some v else none := by
  rw [JsMap.get?_cons]
  rfl

theorem JsMap.get?_set (m : JsMap) (a k : String) (v : FileRecord) :
    JsMap.get? (JsMap.set m a v) k = if k = a then some v else JsMap.get? m k := by
  unfold JsMap.set
  by_cases hm : JsMap.has m a
  · rw [if_pos hm, JsMap.get?_mapRepl]
    simp [hm]
  · have hm' : JsMap.has m a = false := by simpa using hm
    rw [if_neg (by simp [hm']), JsMap.get?_append, JsMap.get?_single]
    by_cases hk : k = a
    · subst hk
      rw [JsMap.get?_eq_none_of_has m k hm']
      simp
    · have : (a == k) = false := by simp [Ne.symm hk]
      rw [this]
      simp [hk]

theorem JsMap.has_set (m : JsMap) (a k : String) (v : FileRecord) :
    JsMap.has (JsMap.set m a v) k = true ↔ k = a ∨ JsMap.has m k = true := by
  by_cases hk : k = a <;>
    simp [← JsMap.isSome_get?, JsMap.get?_set, hk]

theorem JsMap.get?_del (m : JsMap) (a k : String) :
    JsMap.get? (JsMap.del m a) k = if k = a then none else JsMap.get? m k := by
  induction m with
  | nil => by_cases h : k = a <;> simp [JsMap.del, JsMap.get?, h]
  | cons p t ih =>
    simp only [JsMap.del, List.filter_cons] at ih ⊢
    by_cases hp : p.1 = a
    · have h0 : (p.1 != a) = false := by simp [hp]
      rw [h0]
      simp only [Bool.false_eq_true, if_false]
      by_cases hk : k = a
      · subst hk
        simp [ih]
      · have h2 : (p.1 == k) = false := by simp [hp, Ne.symm hk]
        simp [ih, hk, JsMap.get?_cons, h2]
    · have h0 : (p.1 != a) = true := by simp [hp]
      rw [h0]
      simp only [if_true]
      by_cases hpk : p.1 = k
      · have hk : ¬ k = a := fun h => hp (hpk.trans h)
        simp [JsMap.get?_cons, hpk, hk]
      · by_cases hk : k = a
        · subst hk
          simp [JsMap.get?_cons, hpk, hp, ih]
        · simp [JsMap.get?_cons, hpk, hk, ih]

theorem JsMap.has_del (m : JsMap) (a k : String) :
    JsMap.has (JsMap.del m a) k = true ↔ k ≠ a ∧ JsMap.has m k = true := by
  by_cases hk : k = a <;>
    simp [← JsMap.isSome_get?, JsMap.get?_del, hk]

/-! ## Lookup through `new Map(...)` construction -/

/-- The value at the **last** entry of `l` with key `k`; in a JS `Map`
constructed from an entry list, later entries overwrite earlier ones. -/
def lookupLast (l : List (String × FileRecord)) (k : String) : Option FileRecord :=
  (l.reverse.find? (fun p => p.1 == k)).map Prod.snd

theorem lookupLast_cons (kv : String × FileRecord) (t : List (String × FileRecord)) (k : String) :
    lookupLast (kv :: t) k = (lookupLast t k).or (if kv.1 == k then some kv.2 else none) := by
  simp only [lookupLast, List.reverse_cons, List.find?_append]
  cases h : List.find? (fun p => p.1 == k) t.reverse
  · cases hk : kv.1 == k <;> simp [List.find?, hk]
  · simp

theorem lookupLast_append (l₁ l₂ : List (String × FileRecord)) (k : String) :
    lookupLast (l₁ ++ l₂) k = (lookupLast l₂ k).or (lookupLast l₁ k) := by
  simp only [lookupLast, List.reverse_append, List.find?_append]
  cases h : List.find? (fun p => p.1 == k) l₂.reverse <;> simp [h]

theorem get?_foldl_set (l : List (String × FileRecord)) (m : JsMap) (k : String) :
    JsMap.get? (l.foldl (fun acc kv => JsMap.set acc kv.1 kv.2) m) k =
      (lookupLast l k).or (JsMap.get? m k) := by
  induction l generalizing m with
  | nil => simp [lookupLast]
  | cons kv t ih =>
    rw [List.foldl_cons, ih, lookupLast_cons, JsMap.get?_set]
    cases h : lookupLast t k
    · by_cases hk : k = kv.1
      · subst hk
        simp [h]
      · have hne : (kv.1 == k) = false := by simp [Ne.symm hk]
        simp [h, hk, hne]
    · simp [h]

theorem get?_jsNewMap (l : List (String × FileRecord)) (k : String) :
    JsMap.get? (jsNewMap l) k = lookupLast l k := by
  rw [jsNewMap, get?_foldl_set]
  cases lookupLast l k <;> simp [JsMap.get?]

theorem get?_jsMapUnion (a b : JsMap) (k : String) :
    JsMap.get? (jsMapUnion a b) k = (lookupLast b k).or (lookupLast a k) := by
  rw [jsMapUnion, get?_jsNewMap, lookupLast_append]

/-- A bucket map is well formed when its keys are pairwise distinct, as is
every map built through `Map.prototype.set`. -/
def JsMap.NodupKeys (m : JsMap) : Prop := (m.map Prod.fst).Nodup

theorem lookupLast_eq_none (m : JsMap) (k : String) (h : k ∉ m.map Prod.fst) :
    lookupLast m k = none := by
  have hfind : List.find? (fun p => p.1 == k) m.reverse = none := by
    rw [List.find?_eq_none]
    intro x hx
    simp only [beq_iff_eq, Bool.not_eq_true]
    by_cases hxk : x.1 = k
    · exact absurd (hxk ▸ List.mem_map_of_mem Prod.fst (List.mem_reverse.mp hx)) h
    · simp [hxk]
  simp [lookupLast, hfind]

theorem lookupLast_eq_get? (m : JsMap) (k : String) (h : JsMap.NodupKeys m) :
    lookupLast m k = JsMap.get? m k := by
  induction m with
  | nil => rfl
  | cons kv t ih =>
    simp only [JsMap.NodupKeys, List.map_cons, List.nodup_cons] at h
    rw [lookupLast_cons, JsMap.get?_cons, ih h.2]
    by_cases hk : kv.1 = k
    · subst hk
      have hnone : JsMap.get? t kv.1 = none := by
        rw [← ih h.2]
        exact lookupLast_eq_none t kv.1 h.1
      simp [hnone]
    · have hne : (kv.1 == k) = false := by simp [hk]
      rw [hne]
      cases JsMap.get? t k <;> simp

theorem JsMap.has_iff_mem (m : JsMap) (k : String) :
    JsMap.has m k = true ↔ k ∈ m.map Prod.fst := by
  induction m with
  | nil => simp [JsMap.has]
  | cons p t ih =>
    rw [JsMap.has_cons, List.map_cons]
    simp only [Bool.or_eq_true, beq_iff_eq, List.mem_cons, ih]
    constructor
    · rintro (h | h)
      · exact Or.inl h.symm
      · exact Or.inr h
    · rintro (h | h)
      · exact Or.inl h.symm
      · exact Or.inr h

theorem JsMap.keys_set (m : JsMap) (a : String) (v : FileRecord) :
    (JsMap.set m a v).map Prod.fst =
      if JsMap.has m a then m.map Prod.fst else m.map Prod.fst ++ [a] := by
  unfold JsMap.set
  by_cases h : JsMap.has m a
  · rw [if_pos h, if_pos h, List.map_map]
    apply List.map_congr_left
    intro p _
    by_cases hpa : p.1 = a <;> simp [hpa]
  · rw [if_neg h, if_neg h, List.map_append]
    rfl

theorem JsMap.NodupKeys_set (m : JsMap) (a : String) (v : FileRecord)
    (h : JsMap.NodupKeys m) : JsMap.NodupKeys (JsMap.set m a v) := by
  unfold JsMap.NodupKeys at h ⊢
  rw [JsMap.keys_set]
  by_cases hm : JsMap.has m a
  · simpa [hm] using h
  · rw [if_neg hm]
    have hma : a ∉ m.map Prod.fst := fun hmem =>
      hm ((JsMap.has_iff_mem m a).mpr hmem)
    simp [List.nodup_append, h, hma]

theorem JsMap.NodupKeys_foldl_set (l : List (String × FileRecord)) (m : JsMap)
    (h : JsMap.NodupKeys m) :
    JsMap.NodupKeys (l.foldl (fun acc kv => JsMap.set acc kv.1 kv.2) m) := by
  induction l generalizing m with
  | nil => exact h
  | cons kv t ih => exact ih _ (JsMap.NodupKeys_set m kv.1 kv.2 h)

theorem JsMap.NodupKeys_jsNewMap (l : List (String × FileRecord)) :
    JsMap.NodupKeys (jsNewMap l) :=
  JsMap.NodupKeys_foldl_set l [] (by simp [JsMap.NodupKeys])

theorem lookupLast_jsNewMap (l : List (String × FileRecord)) (k : String) :
    lookupLast (jsNewMap l) k = lookupLast l k := by
  have h := lookupLast_eq_get? (jsNewMap l) k (JsMap.NodupKeys_jsNewMap l)
  rw [h, get?_jsNewMap]

/-! ## Merge characterization -/

/-- All seven buckets of a `Result` have pairwise-distinct keys. -/
def ResultWF (r : Result) : Prop := ∀ bid : BucketId, JsMap.NodupKeys (r.bucket bid)

theorem get?_mergeBucketMaps_two (a b : Result) (proj : Result → JsMap) (k : String)
    (ha : JsMap.NodupKeys (proj a)) (hb : JsMap.NodupKeys (proj b)) :
    JsMap.get? (mergeBucketMaps [a, b] proj) k =
      (JsMap.get? (proj b) k).or (JsMap.get? (proj a) k) := by
  unfold mergeBucketMaps
  simp only [List.map_cons, List.map_nil]
  by_cases hae : proj a = []
  · by_cases hbe : proj b = []
    · simp [hae, hbe, List.filter, JsMap.get?]
    · have hbl : (List.length (proj b) != 0) = true := by
        simp [bne_iff_ne, List.length_eq_zero, hbe]
      simp only [hae, List.filter, List.length_nil, bne_self_eq_false, hbl]
      rw [if_pos (by simp)]
      rw [List.foldl_cons, List.foldl_nil, get?_jsMapUnion, lookupLast_eq_get? _ _ hb]
      simp [hae, JsMap.get?, lookupLast]
  · have hal : (List.length (proj a) != 0) = true := by
      simp [bne_iff_ne, List.length_eq_zero, hae]
    by_cases hbe : proj b = []
    · simp only [hbe, List.filter, List.length_nil, bne_self_eq_false, hal]
      rw [if_pos (by simp)]
      rw [List.foldl_cons, List.foldl_nil, get?_jsMapUnion, lookupLast_eq_get? _ _ ha]
      simp [hbe, JsMap.get?, lookupLast]
    · have hbl : (List.length (proj b) != 0) = true := by
        simp [bne_iff_ne, List.length_eq_zero, hbe]
      simp only [List.filter, hal, hbl]
      rw [if_pos (by simp)]
      rw [List.foldl_cons, List.foldl_cons, List.foldl_nil, get?_jsMapUnion]
      have h1 : jsMapUnion [] (proj a) = jsNewMap (proj a) := by
        rw [jsMapUnion, List.nil_append]
      rw [h1, lookupLast_jsNewMap, lookupLast_eq_get? _ _ ha, lookupLast_eq_get? _ _ hb]

/-! ## Membership in merged `htmlJsFiles` sets -/

theorem mem_jsSetAdd (s : List String) (x y : String) :
    y ∈ jsSetAdd s x ↔ y ∈ s ∨ y = x := by
  unfold jsSetAdd
  by_cases h : x ∈ s
  · rw [if_pos h]
    constructor
    · exact Or.inl
    · rintro (hy | rfl)
      · exact hy
      · exact h
  · rw [if_neg h]
    simp

theorem mem_foldl_jsSetAdd (l s : List String) (y : String) :
    y ∈ l.foldl jsSetAdd s ↔ y ∈ s ∨ y ∈ l := by
  induction l generalizing s with
  | nil => simp
  | cons x t ih =>
    rw [List.foldl_cons, ih, mem_jsSetAdd]
    simp [or_assoc]

theorem mem_jsSetUnion (a b : List String) (y : String) :
    y ∈ jsSetUnion a b ↔ y ∈ a ∨ y ∈ b := by
  unfold jsSetUnion jsNewSet
  rw [mem_foldl_jsSetAdd]
  simp

theorem mem_mergeHtmlSets_two (a b : Result) (y : String) :
    y ∈ mergeHtmlSets [a, b] ↔ y ∈ a.htmlJsFiles ∨ y ∈ b.htmlJsFiles := by
  unfold mergeHtmlSets
  simp only [List.map_cons, List.map_nil]
  by_cases hae : a.htmlJsFiles = []
  · by_cases hbe : b.htmlJsFiles = []
    · simp [hae, hbe, List.filter]
    · have hbl : (List.length b.htmlJsFiles != 0) = true := by
        simp [bne_iff_ne, List.length_eq_zero, hbe]
      simp only [hae, List.filter, List.length_nil, bne_self_eq_false, hbl]
      rw [if_pos (by simp)]
      rw [List.foldl_cons, List.foldl_nil, mem_jsSetUnion]
  · have hal : (List.length a.htmlJsFiles != 0) = true := by
      simp [bne_iff_ne, List.length_eq_zero, hae]
    by_cases hbe : b.htmlJsFiles = []
    · simp only [hbe, List.filter, List.length_nil, bne_self_eq_false, hal]
      rw [if_pos (by simp)]
      rw [List.foldl_cons, List.foldl_nil, mem_jsSetUnion]
      simp [hbe]
    · have hbl : (List.length b.htmlJsFiles != 0) = true := by
        simp [bne_iff_ne, List.length_eq_zero, hbe]
      simp only [List.filter, hal, hbl]
      rw [if_pos (by simp)]
      rw [List.foldl_cons, List.foldl_cons, List.foldl_nil, mem_jsSetUnion, mem_jsSetUnion]
      simp [or_assoc]

/-! ## Relative-path lemmas -/

theorem isPrefixOf_append_self (l t : List Char) : l.isPrefixOf (l ++ t) = true := by
  rw [List.isPrefixOf_iff_prefix]
  exact List.prefix_append l t

theorem replaceFirstList_of_front (pat rep t : List Char) :
    replaceFirstList pat rep (pat ++ t) = rep ++ t := by
  cases pat with
  | nil =>
    cases t with
    | nil => simp [replaceFirstList, List.isPrefixOf]
    | cons c rest => simp [replaceFirstList, List.isPrefixOf]
  | cons p ps =>
    show replaceFirstList (p :: ps) rep (p :: (ps ++ t)) = rep ++ t
    rw [replaceFirstList]
    have h1 : (p :: ps).isPrefixOf (p :: (ps ++ t)) = true := isPrefixOf_append_self (p :: ps) t
    rw [if_pos h1]
    simp [List.drop_left]

theorem jsReplaceFirst_front (pat t rep : String) :
    jsReplaceFirst (pat ++ t) pat rep = rep ++ t := by
  apply String.ext
  show replaceFirstList pat.data rep.data ((pat ++ t).data) = (rep ++ t).data
  rw [String.data_append, String.data_append, replaceFirstList_of_front]

theorem strAppend_assoc (a b c : String) : a ++ b ++ c = a ++ (b ++ c) := by
  apply String.ext
  simp [String.data_append, List.append_assoc]

theorem strEmpty_append (s : String) : "" ++ s = s := by
  apply String.ext
  rw [String.data_append]
  rfl

theorem relPathOf_root (src name : String) :
    relPathOf (src ++ "/" ++ name) src none none = name := by
  show jsReplaceFirst ((src ++ "/") ++ name) (src ++ "/") "" = name
  rw [jsReplaceFirst_front, strEmpty_append]

theorem relPathOf_nested (root t name : String) :
    relPathOf ((root ++ "/" ++ t) ++ "/" ++ name) (root ++ "/" ++ t) (some root) none
      = t ++ "/" ++ name := by
  show jsReplaceFirst ((root ++ "/" ++ t) ++ "/" ++ name) (root ++ "/") "" = t ++ "/" ++ name
  have h : (root ++ "/" ++ t) ++ "/" ++ name = (root ++ "/") ++ (t ++ "/" ++ name) := by
    apply String.ext
    simp [String.data_append, List.append_assoc]
  rw [h, jsReplaceFirst_front, strEmpty_append]

/-- The part of a path after its final `'/'` (the whole path when it has no
slash). -/
def lastComponent (p : String) : String :=
  ⟨(p.data.reverse.takeWhile (fun c => c != '/')).reverse⟩

theorem takeWhile_all_of (q : Char → Bool) (l : List Char) (h : ∀ c ∈ l, q c = true) :
    l.takeWhile q = l := by
  induction l with
  | nil => rfl
  | cons x xs ih =>
    rw [List.takeWhile_cons, h x (List.mem_cons_self x xs)]
    simp only [if_true]
    rw [ih (fun c hc => h c (List.mem_cons_of_mem x hc))]

theorem takeWhile_fill (q : Char → Bool) (l rest : List Char) (c : Char)
    (hl : ∀ x ∈ l, q x = true) (hc : q c = false) :
    (l ++ c :: rest).takeWhile q = l := by
  induction l with
  | nil => simp [List.takeWhile_cons, hc]
  | cons x xs ih =>
    rw [List.cons_append, List.takeWhile_cons, hl x (List.mem_cons_self x xs)]
    simp only [if_true]
    rw [ih (fun y hy => hl y (List.mem_cons_of_mem x hy))]

theorem lastComponent_noSlash (name : String) (h : '/' ∉ name.data) :
    lastComponent name = name := by
  apply String.ext
  show (name.data.reverse.takeWhile (fun c => c != '/')).reverse = name.data
  rw [takeWhile_all_of _ _ (fun c hc => by
    have : c ∈ name.data := List.mem_reverse.mp hc
    simp only [bne_iff_ne]
    exact fun hcs => h (hcs ▸ this))]
  exact List.reverse_reverse name.data

theorem lastComponent_append (s name : String) (h : '/' ∉ name.data) :
    lastComponent (s ++ "/" ++ name) = name := by
  apply String.ext
  show ((s ++ "/" ++ name).data.reverse.takeWhile (fun c => c != '/')).reverse = name.data
  have hd : (s ++ "/" ++ name).data.reverse = name.data.reverse ++ '/' :: s.data.reverse := by
    simp [String.data_append, List.reverse_append]
  rw [hd, takeWhile_fill _ _ _ _ (fun x hx => by
      have : x ∈ name.data := List.mem_reverse.mp hx
      simp only [bne_iff_ne]
      exact fun hxs => h (hxs ▸ this))
    (by simp)]
  exact List.reverse_reverse name.data

theorem slash_mem_append (s name : String) : '/' ∈ (s ++ "/" ++ name).data := by
  simp [String.data_append]

/-! ## The bucket a classification targets -/

/-- The bucket chosen by the shared png/jpg tail of `Walker._visitFile`. -/
def sharedBucket (cfg : WalkerCfg) (name relPath : String) : BucketId :=
  match launchLogoMatch name with
  | some _ => .launchLogos
  | none =>
    if cfg.useAppThinning && !bundleTest relPath then .imageAssets else .resourcesToCopy

/-- The bucket `Walker._visitFile` stores a non-ignored file into, as a
function of the configuration, root-levelness (`origSrc` unset), base name
and relative path. -/
def classBucket (cfg : WalkerCfg) (rootLevel : Bool) (name relPath : String) : BucketId :=
  let extCase := (filenameMatch name).map Prod.snd
  if extCase = some "js" then .jsFiles
  else if extCase = some "css" then .cssFiles
  else if extCase = some "png" then
    if rootLevel then
      match cfg.appIconBase.bind (fun b => appIconTag b name) with
      | some _ => .appIcons
      | none =>
        if launchImageTest name then .launchImages
        else sharedBucket cfg name relPath
    else sharedBucket cfg name relPath
  else if extCase = some "jpg" then sharedBucket cfg name relPath
  else .resourcesToCopy

/-- `Walker._visitFile` on a non-ignored file updates exactly the bucket
`classBucket` selects, setting the file's relative path there, and leaves the
six other buckets unchanged. -/
theorem visitFile_buckets (cfg : WalkerCfg) (analyzeHtml : String → String → List String)
    (results : Result) (fromPath toPath name src : String) (origSrc pfx : Option String)
    (hig : testOpt cfg.ignoreFiles name = false) :
    ∃ v : FileRecord, ∀ bid : BucketId,
      (Walker.visitFile cfg analyzeHtml results fromPath toPath name src origSrc pfx).bucket bid =
        if bid = classBucket cfg origSrc.isNone name (relPathOf fromPath src origSrc pfx)
        then JsMap.set (results.bucket bid) (relPathOf fromPath src origSrc pfx) v
        else results.bucket bid := by
  unfold Walker.visitFile classBucket
  rw [hig]
  simp only [Bool.false_eq_true, if_false]
  by_cases h1 : (filenameMatch name).map Prod.snd = some "js"
  · rw [if_pos h1, if_pos h1]
    exact ⟨mkInfo name fromPath toPath, by intro bid; cases bid <;> simp [Result.bucket]⟩
  · rw [if_neg h1, if_neg h1]
    by_cases h2 : (filenameMatch name).map Prod.snd = some "css"
    · rw [if_pos h2, if_pos h2]
      exact ⟨mkInfo name fromPath toPath, by intro bid; cases bid <;> simp [Result.bucket]⟩
    · rw [if_neg h2, if_neg h2]
      by_cases h3 : (filenameMatch name).map Prod.snd = some "png"
      · rw [if_pos h3, if_pos h3]
        unfold pngCase
        by_cases hroot : origSrc.isNone
        · rw [if_pos hroot, if_pos hroot]
          cases hicon : cfg.appIconBase.bind (fun b => appIconTag b name) with
          | some t =>
            exact ⟨{ mkInfo name fromPath toPath with tag := some t },
              by intro bid; cases bid <;> simp [Result.bucket]⟩
          | none =>
            by_cases hli : launchImageTest name
            · rw [if_pos hli, if_pos hli]
              exact ⟨mkInfo name fromPath toPath,
                by intro bid; cases bid <;> simp [Result.bucket]⟩
            · rw [if_neg hli, if_neg hli]
              unfold sharedImage sharedBucket
              cases hlogo : launchLogoMatch name with
              | some sd =>
                exact ⟨{ mkInfo name fromPath toPath with scale := sd.1, device := sd.2 },
                  by intro bid; cases bid <;> simp [Result.bucket]⟩
              | none =>
                by_cases hthin : cfg.useAppThinning &&
                    !bundleTest (relPathOf fromPath src origSrc pfx)
                · rw [if_pos hthin, if_pos hthin]
                  exact ⟨mkInfo name fromPath toPath,
                    by intro bid; cases bid <;> simp [Result.bucket]⟩
                · rw [if_neg hthin, if_neg hthin]
                  exact ⟨mkInfo name fromPath toPath,
                    by intro bid; cases bid <;> simp [Result.bucket]⟩
        · rw [if_neg hroot, if_neg hroot]
          unfold sharedImage sharedBucket
          cases hlogo : launchLogoMatch name with
          | some sd =>
            exact ⟨{ mkInfo name fromPath toPath with scale := sd.1, device := sd.2 },
              by intro bid; cases bid <;> simp [Result.bucket]⟩
          | none =>
            by_cases hthin : cfg.useAppThinning && !bundleTest (relPathOf fromPath src origSrc pfx)
            · rw [if_pos hthin, if_pos hthin]
              exact ⟨mkInfo name fromPath toPath,
                by intro bid; cases bid <;> simp [Result.bucket]⟩
            · rw [if_neg hthin, if_neg hthin]
              exact ⟨mkInfo name fromPath toPath,
                by intro bid; cases bid <;> simp [Result.bucket]⟩
      · rw [if_neg h3, if_neg h3]
        by_cases h4 : (filenameMatch name).map Prod.snd = some "jpg"
        · rw [if_pos h4, if_pos h4]
          unfold sharedImage sharedBucket
          cases hlogo : launchLogoMatch name with
          | some sd =>
            exact ⟨{ mkInfo name fromPath toPath with scale := sd.1, device := sd.2 },
              by intro bid; cases bid <;> simp [Result.bucket]⟩
          | none =>
            by_cases hthin : cfg.useAppThinning && !bundleTest (relPathOf fromPath src origSrc pfx)
            · rw [if_pos hthin, if_pos hthin]
              exact ⟨mkInfo name fromPath toPath,
                by intro bid; cases bid <;> simp [Result.bucket]⟩
            · rw [if_neg hthin, if_neg hthin]
              exact ⟨mkInfo name fromPath toPath,
                by intro bid; cases bid <;> simp [Result.bucket]⟩
        · rw [if_neg h4, if_neg h4]
          by_cases h5 : (filenameMatch name).map Prod.snd = some "html"
          · rw [if_pos h5]
            exact ⟨mkInfo name fromPath toPath,
              by intro bid; cases bid <;> simp [Result.bucket]⟩
          · rw [if_neg h5]
            exact ⟨mkInfo name fromPath toPath,
              by intro bid; cases bid <;> simp [Result.bucket]⟩

/-! ## Key coherence -/

/-- The bucket a relative path can inhabit, computed from the path alone:
in a walk over a real listing (entry names without `'/'`) and without a path
`prefix`, a relative path contains `'/'` iff the file was met in a recursively
visited subdirectory, and its base name is its last component. -/
def keyBucket (cfg : WalkerCfg) (p : String) : BucketId :=
  classBucket cfg (decide ('/' ∉ p.data)) (lastComponent p) p

/-- Every key of every bucket sits in the bucket its path forces. -/
def Coherent (cfg : WalkerCfg) (r : Result) : Prop :=
  ∀ p : String, ∀ bid : BucketId,
    JsMap.has (r.bucket bid) p = true → bid = keyBucket cfg p

/-- Each relative path is a key of at most one of the seven buckets. -/
def Exclusive (r : Result) : Prop :=
  ∀ p : String, ∀ b1 b2 : BucketId,
    JsMap.has (r.bucket b1) p = true → JsMap.has (r.bucket b2) p = true → b1 = b2

theorem Coherent.exclusive {cfg : WalkerCfg} {r : Result} (h : Coherent cfg r) :
    Exclusive r :=
  fun p b1 b2 h1 h2 => (h p b1 h1).trans (h p b2 h2).symm

theorem coherent_empty (cfg : WalkerCfg) : Coherent cfg Result.empty := by
  intro p bid h
  cases bid <;> simp [Result.bucket, Result.empty, JsMap.has] at h

theorem visitFile_coherent_root (cfg : WalkerCfg) (analyzeHtml : String → String → List String)
    (res : Result) (src name toPath : String)
    (h : Coherent cfg res) (hname : '/' ∉ name.data) :
    Coherent cfg (Walker.visitFile cfg analyzeHtml res (src ++ "/" ++ name) toPath
      name src none none) := by
  by_cases hig : testOpt cfg.ignoreFiles name = true
  · have : Walker.visitFile cfg analyzeHtml res (src ++ "/" ++ name) toPath name src none none
        = res := by
      unfold Walker.visitFile
      rw [hig]
      simp
    rw [this]
    exact h
  · obtain ⟨v, hv⟩ := visitFile_buckets cfg analyzeHtml res (src ++ "/" ++ name) toPath name src
      none none (by simpa using hig)
    intro p bid hbid
    rw [hv bid] at hbid
    by_cases hb : bid = classBucket cfg (none : Option String).isNone name
        (relPathOf (src ++ "/" ++ name) src none none)
    · rw [if_pos hb] at hbid
      rcases (JsMap.has_set _ _ _ _).mp hbid with hpa | hold
      · subst hpa
        rw [hb, relPathOf_root src name]
        unfold keyBucket
        rw [lastComponent_noSlash name hname, decide_eq_true hname]
        rfl
      · exact h p bid hold
    · rw [if_neg hb] at hbid
      exact h p bid hbid

theorem visitFile_coherent_nested (cfg : WalkerCfg) (analyzeHtml : String → String → List String)
    (res : Result) (root t name toPath : String)
    (h : Coherent cfg res) (hname : '/' ∉ name.data) :
    Coherent cfg (Walker.visitFile cfg analyzeHtml res ((root ++ "/" ++ t) ++ "/" ++ name) toPath
      name (root ++ "/" ++ t) (some root) none) := by
  by_cases hig : testOpt cfg.ignoreFiles name = true
  · have : Walker.visitFile cfg analyzeHtml res ((root ++ "/" ++ t) ++ "/" ++ name) toPath
        name (root ++ "/" ++ t) (some root) none = res := by
      unfold Walker.visitFile
      rw [hig]
      simp
    rw [this]
    exact h
  · obtain ⟨v, hv⟩ := visitFile_buckets cfg analyzeHtml res ((root ++ "/" ++ t) ++ "/" ++ name)
      toPath name (root ++ "/" ++ t) (some root) none (by simpa using hig)
    intro p bid hbid
    rw [hv bid] at hbid
    by_cases hb : bid = classBucket cfg (some root : Option String).isNone name
        (relPathOf ((root ++ "/" ++ t) ++ "/" ++ name) (root ++ "/" ++ t) (some root) none)
    · rw [if_pos hb] at hbid
      rcases (JsMap.has_set _ _ _ _).mp hbid with hpa | hold
      · subst hpa
        rw [hb, relPathOf_nested root t name]
        unfold keyBucket
        rw [lastComponent_append t name hname]
        have hslash : '/' ∈ (t ++ "/" ++ name).data := slash_mem_append t name
        rw [decide_eq_false (by simp [hslash])]
        rfl
      · exact h p bid hold
    · rw [if_neg hb] at hbid
      exact h p bid hbid

/-! ## Tree-wide side conditions and the traversal invariant -/

mutual

/-- Every entry name in the tree is free of `'/'`, as in any real directory
listing. -/
def noSlashEntry : FSEntry → Bool
  | .file n => decide ('/' ∉ n.data)
  | .dir n children => decide ('/' ∉ n.data) && noSlashForest children
  | .symlinkFile n => decide ('/' ∉ n.data)
  | .symlinkDir n children => decide ('/' ∉ n.data) && noSlashForest children
  | .badDir n => decide ('/' ∉ n.data)
  | .badSymlink n => decide ('/' ∉ n.data)

def noSlashForest : List FSEntry → Bool
  | [] => true
  | e :: rest => noSlashEntry e && noSlashForest rest

end

/-- The relation the traversal maintains between the original root, `origSrc`
and the current `src`. -/
def SrcOK (root : String) (origSrc : Option String) (src : String) : Prop :=
  (origSrc = none ∧ src = root) ∨ (origSrc = some root ∧ ∃ t, src = root ++ "/" ++ t)

mutual

theorem walkDirM_coherent (cfg : WalkerCfg) (analyzeHtml : String → String → List String)
    (res : Result) (children : List FSEntry) (root src dest : String)
    (ig : Option (String → Bool)) (origSrc : Option String) (r : Result)
    (hsrc : SrcOK root origSrc src) (hns : noSlashForest children = true)
    (hcoh : Coherent cfg res)
    (hok : walkDirM cfg analyzeHtml res children src dest ig origSrc none = .ok r) :
    Coherent cfg r := by
  cases children with
  | nil =>
    rw [walkDirM] at hok
    cases hok
    exact hcoh
  | cons e rest =>
    rw [walkDirM] at hok
    rw [noSlashForest] at hns
    rcases Bool.and_eq_true_iff.mp hns with ⟨hnse, hnsr⟩
    cases hv : visitListingM cfg analyzeHtml res e src dest ig origSrc none with
    | error err =>
      rw [hv] at hok
      exact absurd hok (by simp)
    | ok r1 =>
      rw [hv] at hok
      exact walkDirM_coherent cfg analyzeHtml r1 rest root src dest ig origSrc r hsrc hnsr
        (visitListingM_coherent cfg analyzeHtml res e root src dest ig origSrc r1 hsrc hnse
          hcoh hv) hok

theorem visitListingM_coherent (cfg : WalkerCfg) (analyzeHtml : String → String → List String)
    (res : Result) (e : FSEntry) (root src dest : String)
    (ig : Option (String → Bool)) (origSrc : Option String) (r : Result)
    (hsrc : SrcOK root origSrc src) (hns : noSlashEntry e = true)
    (hcoh : Coherent cfg res)
    (hok : visitListingM cfg analyzeHtml res e src dest ig origSrc none = .ok r) :
    Coherent cfg r := by
  cases e with
  | badSymlink n =>
    rw [visitListingM_badSymlink] at hok
    by_cases hig : testOpt ig n = true
    · rw [if_pos hig] at hok
      cases hok
      exact hcoh
    · rw [if_neg hig] at hok
      exact absurd hok (by simp)
  | badDir n =>
    rw [visitListingM_badDir] at hok
    by_cases hig : testOpt ig n = true
    · rw [if_pos hig] at hok
      cases hok
      exact hcoh
    · rw [if_neg hig] at hok
      by_cases hd : testOpt cfg.ignoreDirs n = true
      · rw [if_pos hd] at hok
        cases hok
        exact hcoh
      · rw [if_neg hd] at hok
        exact absurd hok (by simp)
  | dir n children =>
    rw [visitListingM_dir] at hok
    rw [noSlashEntry] at hns
    rcases Bool.and_eq_true_iff.mp hns with ⟨hnm, hnsc⟩
    by_cases hig : testOpt ig n = true
    · rw [if_pos hig] at hok
      cases hok
      exact hcoh
    · rw [if_neg hig] at hok
      by_cases hd : testOpt cfg.ignoreDirs n = true
      · rw [if_pos hd] at hok
        cases hok
        exact hcoh
      · rw [if_neg hd] at hok
        rcases hsrc with ⟨ho, hs⟩ | ⟨ho, t, hs⟩
        · rw [ho, hs] at hok
          exact walkDirM_coherent cfg analyzeHtml res children root (root ++ "/" ++ n)
            (dest ++ "/" ++ n) none (some root) r (Or.inr ⟨rfl, n, rfl⟩) hnsc hcoh hok
        · rw [ho, hs] at hok
          have hs' : (root ++ "/" ++ t) ++ "/" ++ n = root ++ "/" ++ (t ++ "/" ++ n) := by
            apply String.ext
            simp [String.data_append, List.append_assoc]
          rw [hs'] at hok
          exact walkDirM_coherent cfg analyzeHtml res children root (root ++ "/" ++ (t ++ "/" ++ n))
            (dest ++ "/" ++ n) none (some root) r (Or.inr ⟨rfl, t ++ "/" ++ n, rfl⟩) hnsc hcoh hok
  | symlinkDir n children =>
    rw [visitListingM_symlinkDir] at hok
    rw [noSlashEntry] at hns
    rcases Bool.and_eq_true_iff.mp hns with ⟨hnm, hnsc⟩
    by_cases hig : testOpt ig n = true
    · rw [if_pos hig] at hok
      cases hok
      exact hcoh
    · rw [if_neg hig] at hok
      by_cases hd : testOpt cfg.ignoreDirs n = true
      · rw [if_pos hd] at hok
        cases hok
        exact hcoh
      · rw [if_neg hd] at hok
        rcases hsrc with ⟨ho, hs⟩ | ⟨ho, t, hs⟩
        · rw [ho, hs] at hok
          exact walkDirM_coherent cfg analyzeHtml res children root (root ++ "/" ++ n)
            (dest ++ "/" ++ n) none (some root) r (Or.inr ⟨rfl, n, rfl⟩) hnsc hcoh hok
        · rw [ho, hs] at hok
          have hs' : (root ++ "/" ++ t) ++ "/" ++ n = root ++ "/" ++ (t ++ "/" ++ n) := by
            apply String.ext
            simp [String.data_append, List.append_assoc]
          rw [hs'] at hok
          exact walkDirM_coherent cfg analyzeHtml res children root (root ++ "/" ++ (t ++ "/" ++ n))
            (dest ++ "/" ++ n) none (some root) r (Or.inr ⟨rfl, t ++ "/" ++ n, rfl⟩) hnsc hcoh hok
  | file n =>
    rw [visitListingM_file] at hok
    rw [noSlashEntry] at hns
    have hnm : '/' ∉ n.data := of_decide_eq_true hns
    by_cases hig : testOpt ig n = true
    · rw [if_pos hig] at hok
      cases hok
      exact hcoh
    · rw [if_neg hig] at hok
      cases hok
      rcases hsrc with ⟨ho, hs⟩ | ⟨ho, t, hs⟩
      · rw [ho, hs]
        exact visitFile_coherent_root cfg analyzeHtml res root n (dest ++ "/" ++ n) hcoh hnm
      · rw [ho, hs]
        exact visitFile_coherent_nested cfg analyzeHtml res root t n (dest ++ "/" ++ n) hcoh hnm
  | symlinkFile n =>
    rw [visitListingM_symlinkFile] at hok
    rw [noSlashEntry] at hns
    have hnm : '/' ∉ n.data := of_decide_eq_true hns
    by_cases hig : testOpt ig n = true
    · rw [if_pos hig] at hok
      cases hok
      exact hcoh
    · rw [if_neg hig] at hok
      cases hok
      rcases hsrc with ⟨ho, hs⟩ | ⟨ho, t, hs⟩
      · rw [ho, hs]
        exact visitFile_coherent_root cfg analyzeHtml res root n (dest ++ "/" ++ n) hcoh hnm
      · rw [ho, hs]
        exact visitFile_coherent_nested cfg analyzeHtml res root t n (dest ++ "/" ++ n) hcoh hnm

end

/-! ## Which walks succeed: the error-freeness mirror -/

mutual

/-- Traversing this listing (with the given call-scoped ignore pattern)
meets no filesystem failure: bad entries are tolerated only where an ignore
pattern prunes them. -/
def goodForest (cfg : WalkerCfg) (children : List FSEntry)
    (ig : Option (String → Bool)) : Bool :=
  match children with
  | [] => true
  | e :: rest => goodEntry cfg e ig && goodForest cfg rest ig

def goodEntry (cfg : WalkerCfg) (e : FSEntry) (ig : Option (String → Bool)) : Bool :=
  if testOpt ig e.name then true
  else
    match e with
    | .badSymlink _ => false
    | .badDir n => testOpt cfg.ignoreDirs n
    | .dir n children => testOpt cfg.ignoreDirs n || goodForest cfg children none
    | .symlinkDir n children => testOpt cfg.ignoreDirs n || goodForest cfg children none
    | .file _ => true
    | .symlinkFile _ => true

end

mutual

theorem walkDirM_ok_iff (cfg : WalkerCfg) (analyzeHtml : String → String → List String)
    (res : Result) (children : List FSEntry) (src dest : String)
    (ig : Option (String → Bool)) (origSrc pfx : Option String) :
    (∃ r, walkDirM cfg analyzeHtml res children src dest ig origSrc pfx = .ok r) ↔
      goodForest cfg children ig = true := by
  cases children with
  | nil =>
    rw [walkDirM, goodForest]
    simp
  | cons e rest =>
    rw [walkDirM, goodForest]
    cases hv : visitListingM cfg analyzeHtml res e src dest ig origSrc pfx with
    | error err =>
      have hge : goodEntry cfg e ig ≠ true := by
        intro hg
        rcases (visitListingM_ok_iff cfg analyzeHtml res e src dest ig origSrc pfx).mpr hg
          with ⟨r1, hr1⟩
        rw [hv] at hr1
        exact absurd hr1 (by simp)
      simp [hge]
    | ok r1 =>
      have hge : goodEntry cfg e ig = true :=
        (visitListingM_ok_iff cfg analyzeHtml res e src dest ig origSrc pfx).mp ⟨r1, hv⟩
      rw [hge]
      simp only [Bool.true_and]
      exact walkDirM_ok_iff cfg analyzeHtml r1 rest src dest ig origSrc pfx

theorem visitListingM_ok_iff (cfg : WalkerCfg) (analyzeHtml : String → String → List String)
    (res : Result) (e : FSEntry) (src dest : String)
    (ig : Option (String → Bool)) (origSrc pfx : Option String) :
    (∃ r, visitListingM cfg analyzeHtml res e src dest ig origSrc pfx = .ok r) ↔
      goodEntry cfg e ig = true := by
  cases e with
  | file n =>
    rw [visitListingM_file, goodEntry]
    by_cases hig : testOpt ig n = true <;> simp [FSEntry.name, hig]
  | symlinkFile n =>
    rw [visitListingM_symlinkFile, goodEntry]
    by_cases hig : testOpt ig n = true <;> simp [FSEntry.name, hig]
  | badSymlink n =>
    rw [visitListingM_badSymlink, goodEntry]
    by_cases hig : testOpt ig n = true <;> simp [FSEntry.name, hig]
  | badDir n =>
    rw [visitListingM_badDir, goodEntry]
    by_cases hig : testOpt ig n = true
    · simp [FSEntry.name, hig]
    · by_cases hd : testOpt cfg.ignoreDirs n = true <;> simp [FSEntry.name, hig, hd]
  | dir n children =>
    rw [visitListingM_dir, goodEntry]
    by_cases hig : testOpt ig n = true
    · simp [FSEntry.name, hig]
    · by_cases hd : testOpt cfg.ignoreDirs n = true
      · simp [FSEntry.name, hig, hd]
      · simp only [FSEntry.name, hig, hd]
        simp only [Bool.false_eq_true, if_false, Bool.false_or]
        exact walkDirM_ok_iff cfg analyzeHtml res children (src ++ "/" ++ n) (dest ++ "/" ++ n)
          none (some (origSrc.getD src)) pfx
  | symlinkDir n children =>
    rw [visitListingM_symlinkDir, goodEntry]
    by_cases hig : testOpt ig n = true
    · simp [FSEntry.name, hig]
    · by_cases hd : testOpt cfg.ignoreDirs n = true
      · simp [FSEntry.name, hig, hd]
      · simp only [FSEntry.name, hig, hd]
        simp only [Bool.false_eq_true, if_false, Bool.false_or]
        exact walkDirM_ok_iff cfg analyzeHtml res children (src ++ "/" ++ n) (dest ++ "/" ++ n)
          none (some (origSrc.getD src)) pfx

end

/-- Success of `walk` at the root, mirrored structurally.  A missing root
(`none`) and a root whose status lookup `fs.exists` already fails to resolve
(broken symlink) succeed with an empty `Result`; a root that cannot be listed
fails; otherwise success is error-freeness of the traversal. -/
def goodRoot (cfg : WalkerCfg) (root : Option FSEntry)
    (ig : Option (String → Bool)) : Bool :=
  match root with
  | none => true
  | some (.dir _ children) => goodForest cfg children ig
  | some (.symlinkDir _ children) => goodForest cfg children ig
  | some (.badDir _) => false
  | some (.badSymlink _) => true
  | some (.file _) => false
  | some (.symlinkFile _) => false

theorem walk_ok_iff (cfg : WalkerCfg) (analyzeHtml : String → String → List String)
    (root : Option FSEntry) (src dest : String) (ig : Option (String → Bool)) :
    (∃ r, Walker.walk cfg analyzeHtml root src dest ig = .ok r) ↔
      goodRoot cfg root ig = true := by
  cases root with
  | none => simp [Walker.walk, goodRoot]
  | some e =>
    cases e with
    | file n => simp [Walker.walk, goodRoot]
    | symlinkFile n => simp [Walker.walk, goodRoot]
    | badDir n => simp [Walker.walk, goodRoot]
    | badSymlink n => simp [Walker.walk, goodRoot]
    | dir n children =>
      rw [Walker.walk, goodRoot]
      exact walkDirM_ok_iff cfg analyzeHtml Result.empty children src dest ig none none
    | symlinkDir n children =>
      rw [Walker.walk, goodRoot]
      exact walkDirM_ok_iff cfg analyzeHtml Result.empty children src dest ig none none

theorem walk_coherent (cfg : WalkerCfg) (analyzeHtml : String → String → List String)
    (e : FSEntry) (src dest : String) (ig : Option (String → Bool)) (r : Result)
    (hns : noSlashEntry e = true)
    (hok : Walker.walk cfg analyzeHtml (some e) src dest ig = .ok r) :
    Coherent cfg r := by
  cases e with
  | dir n children =>
    rw [Walker.walk] at hok
    rw [noSlashEntry] at hns
    exact walkDirM_coherent cfg analyzeHtml Result.empty children src src dest ig none r
      (Or.inl ⟨rfl, rfl⟩) (Bool.and_eq_true_iff.mp hns).2 (coherent_empty cfg) hok
  | symlinkDir n children =>
    rw [Walker.walk] at hok
    rw [noSlashEntry] at hns
    exact walkDirM_coherent cfg analyzeHtml Result.empty children src src dest ig none r
      (Or.inl ⟨rfl, rfl⟩) (Bool.and_eq_true_iff.mp hns).2 (coherent_empty cfg) hok
  | badDir n =>
    rw [Walker.walk] at hok
    exact absurd hok (by simp)
  | badSymlink n =>
    rw [Walker.walk] at hok
    cases hok
    exact coherent_empty cfg
  | file n =>
    rw [Walker.walk] at hok
    exact absurd hok (by simp)
  | symlinkFile n =>
    rw [Walker.walk] at hok
    exact absurd hok (by simp)

/-! ## The reclassification pass, characterized -/

theorem moveStep_jsFiles_get? (acc : Result) (f q : String) :
    JsMap.get? (moveStep acc f).jsFiles q =
      if q = f then none else JsMap.get? acc.jsFiles q := by
  unfold moveStep
  cases hj : JsMap.get? acc.jsFiles f with
  | none =>
    by_cases hq : q = f
    · subst hq
      simp [hj]
    · simp [hq]
  | some v =>
    simp only
    rw [JsMap.get?_del]

theorem moveStep_resources_get? (acc : Result) (f q : String) :
    JsMap.get? (moveStep acc f).resourcesToCopy q =
      if q = f then (JsMap.get? acc.jsFiles f).or (JsMap.get? acc.resourcesToCopy f)
      else JsMap.get? acc.resourcesToCopy q := by
  unfold moveStep
  cases hj : JsMap.get? acc.jsFiles f with
  | none =>
    by_cases hq : q = f
    · subst hq
      simp [hj]
    · simp [hq]
  | some v =>
    simp only
    rw [JsMap.get?_set]
    by_cases hq : q = f
    · subst hq
      simp
    · simp [hq]

theorem foldlMove_jsFiles (l : List String) (acc : Result) (p : String) :
    JsMap.get? (l.foldl moveStep acc).jsFiles p =
      if p ∈ l then none else JsMap.get? acc.jsFiles p := by
  induction l generalizing acc with
  | nil => simp
  | cons f t ih =>
    rw [List.foldl_cons, ih]
    by_cases hp : p ∈ t
    · simp [hp]
    · rw [if_neg hp, moveStep_jsFiles_get?]
      by_cases hpf : p = f
      · subst hpf
        simp [hp]
      · simp [hpf, hp]

theorem foldlMove_resources (l : List String) (acc : Result) (p : String) :
    JsMap.get? (l.foldl moveStep acc).resourcesToCopy p =
      if p ∈ l then (JsMap.get? acc.jsFiles p).or (JsMap.get? acc.resourcesToCopy p)
      else JsMap.get? acc.resourcesToCopy p := by
  induction l generalizing acc with
  | nil => simp
  | cons f t ih =>
    rw [List.foldl_cons, ih]
    by_cases hp : p ∈ t
    · rw [if_pos hp, if_pos (List.mem_cons_of_mem f hp)]
      rw [moveStep_jsFiles_get?, moveStep_resources_get?]
      by_cases hpf : p = f
      · subst hpf
        simp
      · simp [hpf]
    · rw [if_neg hp, moveStep_resources_get?]
      by_cases hpf : p = f
      · subst hpf
        rw [if_pos rfl, if_pos (List.mem_cons_self p t)]
      · rw [if_neg hpf, if_neg (by simp [hpf, hp])]

theorem moveStep_others (acc : Result) (f : String) :
    (moveStep acc f).appIcons = acc.appIcons ∧
    (moveStep acc f).cssFiles = acc.cssFiles ∧
    (moveStep acc f).launchImages = acc.launchImages ∧
    (moveStep acc f).launchLogos = acc.launchLogos ∧
    (moveStep acc f).imageAssets = acc.imageAssets ∧
    (moveStep acc f).htmlJsFiles = acc.htmlJsFiles := by
  unfold moveStep
  cases JsMap.get? acc.jsFiles f <;> exact ⟨rfl, rfl, rfl, rfl, rfl, rfl⟩

theorem foldlMove_others (l : List String) (acc : Result) :
    (l.foldl moveStep acc).appIcons = acc.appIcons ∧
    (l.foldl moveStep acc).cssFiles = acc.cssFiles ∧
    (l.foldl moveStep acc).launchImages = acc.launchImages ∧
    (l.foldl moveStep acc).launchLogos = acc.launchLogos ∧
    (l.foldl moveStep acc).imageAssets = acc.imageAssets ∧
    (l.foldl moveStep acc).htmlJsFiles = acc.htmlJsFiles := by
  induction l generalizing acc with
  | nil => exact ⟨rfl, rfl, rfl, rfl, rfl, rfl⟩
  | cons f t ih =>
    rw [List.foldl_cons]
    rcases ih (moveStep acc f) with ⟨h1, h2, h3, h4, h5, h6⟩
    rcases moveStep_others acc f with ⟨g1, g2, g3, g4, g5, g6⟩
    exact ⟨h1.trans g1, h2.trans g2, h3.trans g3, h4.trans g4, h5.trans g5, h6.trans g6⟩

theorem movedResult_bucket_at (acc : Result) (f : String) (v : FileRecord)
    (h : Exclusive acc) (hjf : JsMap.has acc.jsFiles f = true) (b : BucketId)
    (hb : JsMap.has (Result.bucket
        { acc with resourcesToCopy := JsMap.set acc.resourcesToCopy f v,
                   jsFiles := JsMap.del acc.jsFiles f } b) f = true) :
    b = BucketId.resourcesToCopy := by
  cases b with
  | jsFiles =>
    have hb' : JsMap.has (JsMap.del acc.jsFiles f) f = true := hb
    rcases (JsMap.has_del _ _ _).mp hb' with ⟨hne, _⟩
    exact absurd rfl hne
  | resourcesToCopy => rfl
  | appIcons => exact absurd (h f .appIcons .jsFiles hb hjf) (by decide)
  | cssFiles => exact absurd (h f .cssFiles .jsFiles hb hjf) (by decide)
  | launchImages => exact absurd (h f .launchImages .jsFiles hb hjf) (by decide)
  | launchLogos => exact absurd (h f .launchLogos .jsFiles hb hjf) (by decide)
  | imageAssets => exact absurd (h f .imageAssets .jsFiles hb hjf) (by decide)

theorem moveStep_exclusive (acc : Result) (f : String) (h : Exclusive acc) :
    Exclusive (moveStep acc f) := by
  unfold moveStep
  cases hj : JsMap.get? acc.jsFiles f with
  | none => exact h
  | some v =>
    have hjf : JsMap.has acc.jsFiles f = true := by
      rw [← JsMap.isSome_get?, hj]
      rfl
    intro p b1 b2 h1 h2
    by_cases hpf : p = f
    · subst hpf
      rw [movedResult_bucket_at acc p v h hjf b1 h1, movedResult_bucket_at acc p v h hjf b2 h2]
    · have red : ∀ b : BucketId,
          JsMap.has (Result.bucket
            { acc with resourcesToCopy := JsMap.set acc.resourcesToCopy f v,
                       jsFiles := JsMap.del acc.jsFiles f } b) p = true →
            JsMap.has (acc.bucket b) p = true := by
        intro b hb
        cases b with
        | jsFiles => exact ((JsMap.has_del _ _ _).mp hb).2
        | resourcesToCopy =>
          rcases (JsMap.has_set _ _ _ _).mp hb with heq | hold
          · exact absurd heq hpf
          · exact hold
        | appIcons => exact hb
        | cssFiles => exact hb
        | launchImages => exact hb
        | launchLogos => exact hb
        | imageAssets => exact hb
      exact h p b1 b2 (red b1 h1) (red b2 h2)

theorem foldlMove_exclusive (l : List String) (acc : Result) (h : Exclusive acc) :
    Exclusive (l.foldl moveStep acc) := by
  induction l generalizing acc with
  | nil => exact h
  | cons f t ih => exact ih _ (moveStep_exclusive acc f h)

theorem dontProcess_exclusive (r : Result) (h : Exclusive r) :
    Exclusive (r.dontProcessJsFilesReferencedFromHTML) :=
  foldlMove_exclusive r.htmlJsFiles r h

theorem dontProcess_resources_has (r : Result) (p : String)
    (h : JsMap.has r.resourcesToCopy p = true) :
    JsMap.has (r.dontProcessJsFilesReferencedFromHTML).resourcesToCopy p = true := by
  unfold Result.dontProcessJsFilesReferencedFromHTML
  rw [← JsMap.isSome_get?] at h ⊢
  rw [foldlMove_resources]
  by_cases hp : p ∈ r.htmlJsFiles
  · rw [if_pos hp]
    cases hjs : JsMap.get? r.jsFiles p <;> cases hres : JsMap.get? r.resourcesToCopy p <;>
      simp [hjs, hres] at h ⊢
  · rw [if_neg hp]
    exact h

theorem visitFile_html_resources (cfg : WalkerCfg) (analyzeHtml : String → String → List String)
    (results : Result) (fromPath toPath name src : String) (origSrc pfx : Option String)
    (hig : testOpt cfg.ignoreFiles name = false)
    (hfm : (filenameMatch name).map Prod.snd = some "html") :
    JsMap.has (Walker.visitFile cfg analyzeHtml results fromPath toPath name src
        origSrc pfx).resourcesToCopy (relPathOf fromPath src origSrc pfx) = true := by
  unfold Walker.visitFile
  rw [hig]
  simp only [Bool.false_eq_true, if_false, hfm]
  rw [if_pos trivial]
  exact (JsMap.has_set _ _ _ _).mpr (Or.inl rfl)

/-! ## Remaining helpers for the claims -/

/-- Two `Result`s are equal as mappings: the same lookup at every key of
every bucket, and the same `htmlJsFiles` membership. -/
def Result.EquivMaps (r s : Result) : Prop :=
  (∀ bid : BucketId, ∀ k : String,
    JsMap.get? (r.bucket bid) k = JsMap.get? (s.bucket bid) k) ∧
  (∀ x : String, x ∈ r.htmlJsFiles ↔ x ∈ s.htmlJsFiles)

/-- No key of any of `a`'s buckets is a key of `b`'s same bucket. -/
def DisjointKeys (a b : Result) : Prop :=
  ∀ bid : BucketId, ∀ k ∈ (a.bucket bid).map Prod.fst,
    JsMap.has (b.bucket bid) k = false

theorem sharedBucket_ne (cfg : WalkerCfg) (name relPath : String) :
    sharedBucket cfg name relPath ≠ .appIcons ∧
    sharedBucket cfg name relPath ≠ .launchImages := by
  unfold sharedBucket
  cases h : launchLogoMatch name with
  | some sd => constructor <;> simp
  | none =>
    by_cases hb : cfg.useAppThinning && !bundleTest relPath
    · constructor <;> simp [hb]
    · constructor <;> simp [hb]

theorem classBucket_nonroot_ne (cfg : WalkerCfg) (name relPath : String) :
    classBucket cfg false name relPath ≠ .appIcons ∧
    classBucket cfg false name relPath ≠ .launchImages := by
  unfold classBucket
  by_cases h1 : (filenameMatch name).map Prod.snd = some "js"
  · rw [if_pos h1]
    exact ⟨by decide, by decide⟩
  · rw [if_neg h1]
    by_cases h2 : (filenameMatch name).map Prod.snd = some "css"
    · rw [if_pos h2]
      exact ⟨by decide, by decide⟩
    · rw [if_neg h2]
      by_cases h3 : (filenameMatch name).map Prod.snd = some "png"
      · rw [if_pos h3]
        simp only [Bool.false_eq_true, if_false]
        exact sharedBucket_ne cfg name relPath
      · rw [if_neg h3]
        by_cases h4 : (filenameMatch name).map Prod.snd = some "jpg"
        · rw [if_pos h4]
          exact sharedBucket_ne cfg name relPath
        · rw [if_neg h4]
          exact ⟨by decide, by decide⟩

theorem visitFile_nonroot_frame (cfg : WalkerCfg) (analyzeHtml : String → String → List String)
    (res : Result) (fromPath toPath name src r0 : String) (pfx : Option String) :
    (Walker.visitFile cfg analyzeHtml res fromPath toPath name src (some r0) pfx).appIcons
      = res.appIcons ∧
    (Walker.visitFile cfg analyzeHtml res fromPath toPath name src (some r0) pfx).launchImages
      = res.launchImages := by
  by_cases hig : testOpt cfg.ignoreFiles name = true
  · have hres : Walker.visitFile cfg analyzeHtml res fromPath toPath name src (some r0) pfx
        = res := by
      unfold Walker.visitFile
      rw [hig]
      simp
    rw [hres]
    exact ⟨rfl, rfl⟩
  · obtain ⟨v, hv⟩ := visitFile_buckets cfg analyzeHtml res fromPath toPath name src (some r0) pfx
      (by simp at hig; exact hig)
    have hfalse : (some r0 : Option String).isNone = false := rfl
    constructor
    · have h1 := hv .appIcons
      rw [hfalse] at h1
      rw [if_neg (fun heq =>
        (classBucket_nonroot_ne cfg name (relPathOf fromPath src (some r0) pfx)).1 heq.symm)] at h1
      exact h1
    · have h1 := hv .launchImages
      rw [hfalse] at h1
      rw [if_neg (fun heq =>
        (classBucket_nonroot_ne cfg name (relPathOf fromPath src (some r0) pfx)).2 heq.symm)] at h1
      exact h1

theorem regexPlain_dotEscape (b : List Char)
    (h : ∀ c ∈ b, regexSyntaxChar c = false ∨ c = '.') :
    literalAtoms (dotEscape b) = some b := by
  induction b with
  | nil => rfl
  | cons c t ih =>
    have iht := ih (fun x hx => h x (List.mem_cons_of_mem c hx))
    rcases h c (List.mem_cons_self c t) with hc | hc
    · have hdot : (c == '.') = false := by
        cases hcc : c == '.'
        · rfl
        · have hce : c = '.' := by simpa using hcc
          rw [hce] at hc
          exact absurd hc (by decide)
      have hbs : (c == '\\') = false := by
        cases hcc : c == '\\'
        · rfl
        · have hce : c = '\\' := by simpa using hcc
          rw [hce] at hc
          exact absurd hc (by decide)
      have e1 : dotEscape (c :: t) = c :: dotEscape t := by
        rw [dotEscape, if_neg (by simp [hdot])]
      have e2 : literalAtoms (c :: dotEscape t) =
          (literalAtoms (dotEscape t)).map (fun l => c :: l) := by
        rw [literalAtoms.eq_def]
        simp only [hbs, hc, Bool.false_eq_true, if_false]
      rw [e1, e2, iht]
      rfl
    · subst hc
      have e1 : dotEscape ('.' :: t) = '\\' :: '.' :: dotEscape t := by
        rw [dotEscape]
        rfl
      have e2 : literalAtoms ('\\' :: '.' :: dotEscape t) =
          (literalAtoms (dotEscape t)).map (fun l => '.' :: l) := by
        rw [literalAtoms.eq_def]
        rfl
      rw [e1, e2, iht]
      rfl

theorem appIconTag_append (base tg : String)
    (hb : ∀ c ∈ base.data, regexSyntaxChar c = false ∨ c = '.')
    (hnl : ∀ c ∈ tg.data, jsDot c = true) :
    appIconTag base (base ++ tg ++ ".png") = some tg := by
  unfold appIconTag
  rw [regexPlain_dotEscape base.data hb]
  show literalCaptureTag base.data ((base ++ tg ++ ".png").data) = some tg
  unfold literalCaptureTag
  have hd : (base ++ tg ++ ".png").data = base.data ++ (tg.data ++ ".png".data) := by
    simp [String.data_append, List.append_assoc]
  rw [hd]
  rw [if_pos (isPrefixOf_append_self base.data (tg.data ++ ".png".data))]
  rw [List.drop_left]
  have hsuf : (".png".data).isSuffixOf (tg.data ++ ".png".data) = true := by
    rw [List.isSuffixOf_iff_suffix]
    exact List.suffix_append tg.data ".png".data
  rw [if_pos hsuf]
  have hpl : (".png".data).length = 4 := rfl
  have hlen : (tg.data ++ ".png".data).length - 4 = tg.data.length := by
    rw [List.length_append, hpl]
    omega
  rw [hlen, List.take_left]
  rw [if_pos (List.all_eq_true.mpr hnl)]

theorem splitLastDot_none (l : List Char) (h : '.' ∉ l) : splitLastDotList l = none := by
  induction l with
  | nil => rfl
  | cons c cs ih =>
    rw [splitLastDotList, ih (fun hm => h (List.mem_cons_of_mem c hm))]
    have : (c == '.') = false := by
      simp only [beq_eq_false_iff_ne]
      exact fun hc => h (hc ▸ List.mem_cons_self c cs)
    rw [this]
    rfl

theorem splitLastDot_append (st e : List Char) (he : '.' ∉ e) :
    splitLastDotList (st ++ '.' :: e) = some (st, e) := by
  induction st with
  | nil =>
    rw [List.nil_append, splitLastDotList, splitLastDot_none e he]
    rfl
  | cons c cs ih =>
    rw [List.cons_append, splitLastDotList, ih]

theorem filenameMatch_split (stem e : String) (h2 : e ≠ "")
    (h3 : ∀ c ∈ e.data, isWordChar c = true) (h4 : ∀ c ∈ stem.data, jsDot c = true) :
    filenameMatch (stem ++ "." ++ e) = some (stem, e) := by
  unfold filenameMatch
  have hd : (stem ++ "." ++ e).data = stem.data ++ '.' :: e.data := by
    simp [String.data_append]
  have hdot : '.' ∉ e.data := fun hm => by
    have := h3 '.' hm
    exact absurd this (by decide)
  rw [hd, splitLastDot_append stem.data e.data hdot]
  show (if (!e.data.isEmpty && e.data.all isWordChar && stem.data.all jsDot) = true
      then some ((⟨stem.data⟩ : String), (⟨e.data⟩ : String)) else none) = some (stem, e)
  have he1 : e.data.isEmpty = false := by
    cases hed : e.data with
    | nil => exact absurd (String.ext hed) h2
    | cons x xs => rfl
  have he2 : e.data.all isWordChar = true := List.all_eq_true.mpr h3
  have he3 : stem.data.all jsDot = true := List.all_eq_true.mpr h4
  rw [he1, he2, he3]
  rfl

theorem splitLastDot_sound (l pre suf : List Char)
    (h : splitLastDotList l = some (pre, suf)) : l = pre ++ '.' :: suf := by
  induction l generalizing pre suf with
  | nil => exact Option.noConfusion h
  | cons c rest ih =>
    rw [splitLastDotList] at h
    cases hs : splitLastDotList rest with
    | some pq =>
      obtain ⟨p1, p2⟩ := pq
      rw [hs] at h
      have h' : some (c :: p1, p2) = some (pre, suf) := h
      injection h' with hpair
      injection hpair with h1 h2
      rw [← h1, ← h2, List.cons_append, ← ih p1 p2 hs]
    | none =>
      rw [hs] at h
      have h2 : (if c == '.' then some (([] : List Char), rest) else none)
          = some (pre, suf) := h
      cases hc : c == '.' with
      | false =>
        rw [hc] at h2
        exact Option.noConfusion ((if_neg (by simp)).symm.trans h2)
      | true =>
        have hcd : c = '.' := by simpa using hc
        rw [hc] at h2
        have h3 : some (([] : List Char), rest) = some (pre, suf) :=
          (if_pos rfl).symm.trans h2
        injection h3 with hpair
        injection hpair with h1' h2'
        rw [← h1', ← h2', List.nil_append, hcd]

theorem filenameMatch_sound (name st ex : String)
    (h : filenameMatch name = some (st, ex)) :
    name = st ++ "." ++ ex ∧ ex ≠ "" ∧
      (∀ c ∈ ex.data, isWordChar c = true) ∧ (∀ c ∈ st.data, jsDot c = true) := by
  unfold filenameMatch at h
  cases hs : splitLastDotList name.data with
  | none =>
    rw [hs] at h
    exact Option.noConfusion h
  | some pq =>
    obtain ⟨p, s⟩ := pq
    rw [hs] at h
    have h2 : (if (!s.isEmpty && s.all isWordChar && p.all jsDot) = true
        then some ((⟨p⟩ : String), (⟨s⟩ : String)) else none) = some (st, ex) := h
    cases hcond : !s.isEmpty && s.all isWordChar && p.all jsDot with
    | false =>
      rw [hcond] at h2
      exact Option.noConfusion ((if_neg (by simp)).symm.trans h2)
    | true =>
      rw [hcond] at h2
      have h3 : some ((⟨p⟩ : String), (⟨s⟩ : String)) = some (st, ex) :=
        (if_pos rfl).symm.trans h2
      injection h3 with hpair
      injection hpair with hst hex
      subst hst
      subst hex
      have hd := splitLastDot_sound name.data p s hs
      simp only [Bool.and_eq_true, Bool.not_eq_true'] at hcond
      obtain ⟨⟨hne, hword⟩, hdot⟩ := hcond
      refine ⟨?_, ?_, ?_, ?_⟩
      · apply String.ext
        rw [String.data_append, String.data_append, hd]
        show p ++ '.' :: s = (p ++ ['.']) ++ s
        rw [List.append_assoc]
        rfl
      · intro hce
        have hsd : s = [] := congrArg String.data hce
        rw [hsd] at hne
        exact absurd hne (by decide)
      · exact fun c hcm => List.all_eq_true.mp hword c hcm
      · exact fun c hcm => List.all_eq_true.mp hdot c hcm

theorem walkDirM_ignore_agree (cfg : WalkerCfg) (analyzeHtml : String → String → List String)
    (res : Result) (children : List FSEntry) (src dest : String)
    (i1 i2 : Option (String → Bool)) (origSrc pfx : Option String)
    (hagree : ∀ e ∈ children, testOpt i1 e.name = testOpt i2 e.name) :
    walkDirM cfg analyzeHtml res children src dest i1 origSrc pfx =
      walkDirM cfg analyzeHtml res children src dest i2 origSrc pfx := by
  induction children generalizing res with
  | nil => rw [walkDirM, walkDirM]
  | cons e rest ih =>
    rw [walkDirM, walkDirM]
    have he : visitListingM cfg analyzeHtml res e src dest i1 origSrc pfx =
        visitListingM cfg analyzeHtml res e src dest i2 origSrc pfx := by
      have h := hagree e (List.mem_cons_self e rest)
      cases e with
      | file n =>
        simp only [FSEntry.name] at h
        rw [visitListingM_file, visitListingM_file, h]
      | symlinkFile n =>
        simp only [FSEntry.name] at h
        rw [visitListingM_symlinkFile, visitListingM_symlinkFile, h]
      | dir n children =>
        simp only [FSEntry.name] at h
        rw [visitListingM_dir, visitListingM_dir, h]
      | symlinkDir n children =>
        simp only [FSEntry.name] at h
        rw [visitListingM_symlinkDir, visitListingM_symlinkDir, h]
      | badDir n =>
        simp only [FSEntry.name] at h
        rw [visitListingM_badDir, visitListingM_badDir, h]
      | badSymlink n =>
        simp only [FSEntry.name] at h
        rw [visitListingM_badSymlink, visitListingM_badSymlink, h]
    rw [he]
    cases visitListingM cfg analyzeHtml res e src dest i2 origSrc pfx with
    | error err => rfl
    | ok r1 => exact ih r1 (fun e2 hm => hagree e2 (List.mem_cons_of_mem e hm))

theorem sharedImage_noLogo (cfg : WalkerCfg) (results : Result) (relPath : String)
    (info : FileRecord) (name : String) (hlogo : launchLogoMatch name = none) :
    sharedImage cfg results relPath info name =
      if cfg.useAppThinning && !bundleTest relPath then
        { results with imageAssets := JsMap.set results.imageAssets relPath info }
      else
        { results with resourcesToCopy := JsMap.set results.resourcesToCopy relPath info } := by
  unfold sharedImage
  rw [hlogo]

theorem sharedImage_logo (cfg : WalkerCfg) (results : Result) (relPath : String)
    (info : FileRecord) (name : String) (sc dev : Option String)
    (hlogo : launchLogoMatch name = some (sc, dev)) :
    sharedImage cfg results relPath info name =
      { results with
          launchLogos := JsMap.set results.launchLogos relPath
            { info with scale := sc, device := dev } } := by
  unfold sharedImage
  rw [hlogo]

theorem pngCase_shared (cfg : WalkerCfg) (results : Result) (relPath : String)
    (info : FileRecord) (name : String) (origSrc : Option String)
    (hroot : origSrc = none →
      cfg.appIconBase.bind (fun b => appIconTag b name) = none ∧
        launchImageTest name = false) :
    pngCase cfg results relPath info name origSrc =
      sharedImage cfg results relPath info name := by
  unfold pngCase
  cases origSrc with
  | some r0 => rw [if_neg (by simp)]
  | none =>
    rw [if_pos (show (none : Option String).isNone = true from rfl)]
    obtain ⟨hic, hli⟩ := hroot rfl
    rw [hic]
    simp [hli]

/-! ## Fixtures for the claim witnesses -/

/-- An HTML analyzer that reports no referenced scripts. -/
def analyzeNone : String → String → List String := fun _ _ => []

/-- An HTML analyzer that reports a reference to `foo.js` from every file. -/
def analyzeFoo : String → String → List String := fun _ _ => ["foo.js"]

/-- A walker configured with icon `icon.png`, app thinning off, no ignores. -/
def cfgW : WalkerCfg := Walker.ofOptions "icon.png" false none none

/-- A walker configured with icon `icon.png`, app thinning on, no ignores. -/
def cfgThin : WalkerCfg := Walker.ofOptions "icon.png" true none none

def recA : FileRecord := ⟨"a", some "js", "/r/a.js", "/d/a.js", none, none, none⟩

def recB : FileRecord := ⟨"b", some "js", "/q/a.js", "/e/a.js", none, none, none⟩

def resX : Result := ⟨[], [], [("a.js", recA)], [], [], [], [], []⟩

def resZ : Result := ⟨[], [], [("z.js", recB)], [], [], [], [], ["t.js"]⟩

/-- A result holding `a.js` in `jsFiles` and referencing it from markup. -/
def resH : Result := ⟨[], [], [("a.js", recA)], [], [], [], [], ["a.js"]⟩

/-- The result of visiting the single file of the witness tree. -/
def r1W : Result := Walker.visitFile cfgW analyzeNone Result.empty ("/r" ++ "/" ++ "a.js")
  ("/d" ++ "/" ++ "a.js") "a.js" "/r" none none

/-! ## The claims -/

/-- C1: for every finalized `Result` a walk produces (over a real listing:
entry names free of `'/'`, the three-argument `walk` call), each relative
path is a key of at most one of the seven buckets, both before and after the
reclassification pass; and every single non-ignored file classification
updates exactly one bucket, setting the file's relative path there and
leaving the six others unchanged. -/
theorem spec_C1_bucket_exclusivity (cfg : WalkerCfg)
    (analyzeHtml : String → String → List String) (e : FSEntry)
    (src dest : String) (ig : Option (String → Bool)) (r : Result)
    (res : Result) (fromPath toPath name fsrc : String) (origSrc pfx : Option String)
    (hns : noSlashEntry e = true)
    (hok : Walker.walk cfg analyzeHtml (some e) src dest ig = .ok r)
    (hig : testOpt cfg.ignoreFiles name = false) :
    Exclusive r ∧ Exclusive r.dontProcessJsFilesReferencedFromHTML ∧
    ∃ v : FileRecord, ∀ bid : BucketId,
      (Walker.visitFile cfg analyzeHtml res fromPath toPath name fsrc origSrc pfx).bucket bid =
        if bid = classBucket cfg origSrc.isNone name (relPathOf fromPath fsrc origSrc pfx)
        then JsMap.set (res.bucket bid) (relPathOf fromPath fsrc origSrc pfx) v
        else res.bucket bid := by
  have hc := walk_coherent cfg analyzeHtml e src dest ig r hns hok
  exact ⟨hc.exclusive, dontProcess_exclusive r hc.exclusive,
    visitFile_buckets cfg analyzeHtml res fromPath toPath name fsrc origSrc pfx hig⟩

theorem spec_C1_witness :
    Exclusive r1W ∧ Exclusive r1W.dontProcessJsFilesReferencedFromHTML ∧
    ∃ v : FileRecord, ∀ bid : BucketId,
      (Walker.visitFile cfgW analyzeNone Result.empty "/r/b.png" "/d/b.png" "b.png" "/r"
          none none).bucket bid =
        if bid = classBucket cfgW (none : Option String).isNone "b.png"
            (relPathOf "/r/b.png" "/r" none none)
        then JsMap.set (Result.empty.bucket bid) (relPathOf "/r/b.png" "/r" none none) v
        else Result.empty.bucket bid :=
  spec_C1_bucket_exclusivity cfgW analyzeNone (.dir "r" [.file "a.js"]) "/r" "/d" none r1W
    Result.empty "/r/b.png" "/d/b.png" "b.png" "/r" none none
    (by simp only [noSlashEntry, noSlashForest]; decide)
    (by
      have hstep : visitListingM cfgW analyzeNone Result.empty (.file "a.js") "/r" "/d"
          none none none = .ok r1W := by
        rw [visitListingM_file, if_neg (by simp [testOpt])]
        rfl
      rw [Walker.walk, walkDirM, hstep]
      simp [walkDirM])
    rfl

/-- C3: the reclassification pass moves exactly the markup-referenced paths
that are `jsFiles` keys into `resourcesToCopy` (record unchanged), leaves
every other lookup and every other bucket as it was, and an HTML file that
produced the references is itself in `resourcesToCopy`, before and after the
pass. -/
theorem spec_C3_reclassification (r : Result) (p : String) (cfg : WalkerCfg)
    (analyzeHtml : String → String → List String) (res : Result)
    (fromPath toPath name src : String) (origSrc pfx : Option String)
    (hig : testOpt cfg.ignoreFiles name = false)
    (hfm : (filenameMatch name).map Prod.snd = some "html") :
    JsMap.get? r.dontProcessJsFilesReferencedFromHTML.jsFiles p =
      (if p ∈ r.htmlJsFiles then none else JsMap.get? r.jsFiles p) ∧
    JsMap.get? r.dontProcessJsFilesReferencedFromHTML.resourcesToCopy p =
      (if p ∈ r.htmlJsFiles
       then (JsMap.get? r.jsFiles p).or (JsMap.get? r.resourcesToCopy p)
       else JsMap.get? r.resourcesToCopy p) ∧
    r.dontProcessJsFilesReferencedFromHTML.appIcons = r.appIcons ∧
    r.dontProcessJsFilesReferencedFromHTML.cssFiles = r.cssFiles ∧
    r.dontProcessJsFilesReferencedFromHTML.launchImages = r.launchImages ∧
    r.dontProcessJsFilesReferencedFromHTML.launchLogos = r.launchLogos ∧
    r.dontProcessJsFilesReferencedFromHTML.imageAssets = r.imageAssets ∧
    r.dontProcessJsFilesReferencedFromHTML.htmlJsFiles = r.htmlJsFiles ∧
    JsMap.has (Walker.visitFile cfg analyzeHtml res fromPath toPath name src
        origSrc pfx).resourcesToCopy (relPathOf fromPath src origSrc pfx) = true ∧
    JsMap.has ((Walker.visitFile cfg analyzeHtml res fromPath toPath name src
        origSrc pfx).dontProcessJsFilesReferencedFromHTML).resourcesToCopy
      (relPathOf fromPath src origSrc pfx) = true := by
  obtain ⟨o1, o2, o3, o4, o5, o6⟩ := foldlMove_others r.htmlJsFiles r
  exact ⟨foldlMove_jsFiles r.htmlJsFiles r p, foldlMove_resources r.htmlJsFiles r p,
    o1, o2, o3, o4, o5, o6,
    visitFile_html_resources cfg analyzeHtml res fromPath toPath name src origSrc pfx hig hfm,
    dontProcess_resources_has _ _
      (visitFile_html_resources cfg analyzeHtml res fromPath toPath name src origSrc pfx hig hfm)⟩

theorem spec_C3_witness :
    JsMap.get? resH.dontProcessJsFilesReferencedFromHTML.jsFiles "a.js" =
      (if "a.js" ∈ resH.htmlJsFiles then none else JsMap.get? resH.jsFiles "a.js") ∧
    JsMap.get? resH.dontProcessJsFilesReferencedFromHTML.resourcesToCopy "a.js" =
      (if "a.js" ∈ resH.htmlJsFiles
       then (JsMap.get? resH.jsFiles "a.js").or (JsMap.get? resH.resourcesToCopy "a.js")
       else JsMap.get? resH.resourcesToCopy "a.js") ∧
    resH.dontProcessJsFilesReferencedFromHTML.appIcons = resH.appIcons ∧
    resH.dontProcessJsFilesReferencedFromHTML.cssFiles = resH.cssFiles ∧
    resH.dontProcessJsFilesReferencedFromHTML.launchImages = resH.launchImages ∧
    resH.dontProcessJsFilesReferencedFromHTML.launchLogos = resH.launchLogos ∧
    resH.dontProcessJsFilesReferencedFromHTML.imageAssets = resH.imageAssets ∧
    resH.dontProcessJsFilesReferencedFromHTML.htmlJsFiles = resH.htmlJsFiles ∧
    JsMap.has (Walker.visitFile cfgW analyzeFoo Result.empty "/r/index.html" "/d/index.html"
        "index.html" "/r" none none).resourcesToCopy
      (relPathOf "/r/index.html" "/r" none none) = true ∧
    JsMap.has ((Walker.visitFile cfgW analyzeFoo Result.empty "/r/index.html" "/d/index.html"
        "index.html" "/r" none none).dontProcessJsFilesReferencedFromHTML).resourcesToCopy
      (relPathOf "/r/index.html" "/r" none none) = true :=
  spec_C3_reclassification resH "a.js" cfgW analyzeFoo Result.empty "/r/index.html"
    "/d/index.html" "index.html" "/r" none none rfl (by decide)

/-- C4: `Result.merge` unions the seven buckets and the
markup-referenced-scripts set, later arguments overwriting earlier ones on
key collision: over well-formed results, merging two results with disjoint
keys is commutative up to map equality, the merged `htmlJsFiles` is the
membership union, and at a key the later argument holds, the merge holds the
later argument's record. -/
theorem spec_C4_merge (a b : Result) (ha : ResultWF a) (hb : ResultWF b) :
    (DisjointKeys a b → Result.EquivMaps (Result.merge [a, b]) (Result.merge [b, a])) ∧
    (∀ x : String, x ∈ (Result.merge [a, b]).htmlJsFiles ↔
      x ∈ a.htmlJsFiles ∨ x ∈ b.htmlJsFiles) ∧
    (∀ bid : BucketId, ∀ k : String, ∀ v : FileRecord,
      JsMap.get? (b.bucket bid) k = some v →
        JsMap.get? ((Result.merge [a, b]).bucket bid) k = some v) := by
  have hab : ∀ bid k, JsMap.get? ((Result.merge [a, b]).bucket bid) k =
      (JsMap.get? (b.bucket bid) k).or (JsMap.get? (a.bucket bid) k) := by
    intro bid k
    rw [Result.bucket_merge]
    exact get?_mergeBucketMaps_two a b (fun x => x.bucket bid) k (ha bid) (hb bid)
  have hba : ∀ bid k, JsMap.get? ((Result.merge [b, a]).bucket bid) k =
      (JsMap.get? (a.bucket bid) k).or (JsMap.get? (b.bucket bid) k) := by
    intro bid k
    rw [Result.bucket_merge]
    exact get?_mergeBucketMaps_two b a (fun x => x.bucket bid) k (hb bid) (ha bid)
  refine ⟨fun hdisj => ⟨fun bid k => ?_, fun x => ?_⟩, fun x => mem_mergeHtmlSets_two a b x,
    fun bid k v hv => ?_⟩
  · rw [hab, hba]
    cases hga : JsMap.get? (a.bucket bid) k with
    | none => simp
    | some v =>
      have hmem : k ∈ (a.bucket bid).map Prod.fst := by
        rw [← JsMap.has_iff_mem, ← JsMap.isSome_get?, hga]
        rfl
      have hgb : JsMap.get? (b.bucket bid) k = none :=
        JsMap.get?_eq_none_of_has _ _ (hdisj bid k hmem)
      rw [hgb]
      simp
  · show x ∈ mergeHtmlSets [a, b] ↔ x ∈ mergeHtmlSets [b, a]
    rw [mem_mergeHtmlSets_two, mem_mergeHtmlSets_two]
    exact or_comm
  · rw [hab, hv]
    simp

theorem spec_C4_witness :
    (DisjointKeys resX resZ → Result.EquivMaps (Result.merge [resX, resZ])
      (Result.merge [resZ, resX])) ∧
    (∀ x : String, x ∈ (Result.merge [resX, resZ]).htmlJsFiles ↔
      x ∈ resX.htmlJsFiles ∨ x ∈ resZ.htmlJsFiles) ∧
    (∀ bid : BucketId, ∀ k : String, ∀ v : FileRecord,
      JsMap.get? (resZ.bucket bid) k = some v →
        JsMap.get? ((Result.merge [resX, resZ]).bucket bid) k = some v) :=
  spec_C4_merge resX resZ
    (by unfold ResultWF JsMap.NodupKeys; intro bid; cases bid <;> decide)
    (by unfold ResultWF JsMap.NodupKeys; intro bid; cases bid <;> decide)

/-- C5: `walk` on a missing root returns the empty `Result` and no error;
on an existing root, the walk succeeds exactly when the traversal (after
ignore-pattern pruning) meets no filesystem failure, and any such failure
makes the whole walk return the error — the caller gets a complete `Result`
or the failure, never a partial result. -/
theorem spec_C5_walk_errors (cfg : WalkerCfg) (analyzeHtml : String → String → List String)
    (src dest : String) (ig : Option (String → Bool)) :
    Walker.walk cfg analyzeHtml none src dest ig = .ok Result.empty ∧
    (∀ e : FSEntry,
      ((∃ r, Walker.walk cfg analyzeHtml (some e) src dest ig = .ok r) ↔
        goodRoot cfg (some e) ig = true) ∧
      (goodRoot cfg (some e) ig = false →
        ∃ err, Walker.walk cfg analyzeHtml (some e) src dest ig = .error err)) := by
  refine ⟨rfl, fun e => ⟨walk_ok_iff cfg analyzeHtml (some e) src dest ig, fun hbad => ?_⟩⟩
  cases hw : Walker.walk cfg analyzeHtml (some e) src dest ig with
  | error err => exact ⟨err, rfl⟩
  | ok r =>
    have := (walk_ok_iff cfg analyzeHtml (some e) src dest ig).mp ⟨r, hw⟩
    rw [this] at hbad
    exact absurd hbad (by simp)

/-- C10: the call-scoped ignore pattern is tested only against the names of
the requested root's direct children — two walks whose third arguments agree
on those names produce the same result — and the recursive call into a
subdirectory passes no ignore pattern down (deeper entries are filtered only
by the construction-time `ignoreDirs`/`ignoreFiles`). -/
theorem spec_C10_root_only_ignore (cfg : WalkerCfg)
    (analyzeHtml : String → String → List String) (children : List FSEntry)
    (src dest : String) (i1 i2 : Option (String → Bool)) (res2 : Result)
    (n2 : String) (children2 : List FSEntry) (src2 dest2 : String)
    (ig2 : Option (String → Bool)) (origSrc2 pfx2 : Option String)
    (hagree : ∀ e ∈ children, testOpt i1 e.name = testOpt i2 e.name)
    (hig2 : testOpt ig2 n2 = false)
    (hd2 : testOpt cfg.ignoreDirs n2 = false) :
    Walker.walk cfg analyzeHtml (some (.dir "root" children)) src dest i1 =
      Walker.walk cfg analyzeHtml (some (.dir "root" children)) src dest i2 ∧
    visitListingM cfg analyzeHtml res2 (.dir n2 children2) src2 dest2 ig2 origSrc2 pfx2 =
      walkDirM cfg analyzeHtml res2 children2 (src2 ++ "/" ++ n2) (dest2 ++ "/" ++ n2)
        none (some (origSrc2.getD src2)) pfx2 := by
  constructor
  · rw [Walker.walk, Walker.walk]
    exact walkDirM_ignore_agree cfg analyzeHtml Result.empty children src dest i1 i2
      none none hagree
  · rw [visitListingM_dir, if_neg (by simp [hig2]), if_neg (by simp [hd2])]

theorem spec_C10_witness :
    Walker.walk cfgW analyzeNone
        (some (.dir "root" [.file "keep.js", .file "skip.png"])) "/r" "/d"
        (some (fun s => s == "skip.png")) =
      Walker.walk cfgW analyzeNone
        (some (.dir "root" [.file "keep.js", .file "skip.png"])) "/r" "/d"
        (some (fun s => decide (s = "skip.png"))) ∧
    visitListingM cfgW analyzeNone Result.empty (.dir "sub" [.file "x.js"]) "/r" "/d"
        none none none =
      walkDirM cfgW analyzeNone Result.empty [.file "x.js"] ("/r" ++ "/" ++ "sub")
        ("/d" ++ "/" ++ "sub") none (some ((none : Option String).getD "/r")) none :=
  spec_C10_root_only_ignore cfgW analyzeNone [.file "keep.js", .file "skip.png"] "/r" "/d"
    (some (fun s => s == "skip.png")) (some (fun s => decide (s = "skip.png")))
    Result.empty "sub" [.file "x.js"] "/r" "/d" none none none
    (by intro e he; fin_cases he <;> simp [FSEntry.name, testOpt]) rfl rfl

/-- C2: the app-icon and launch-image rules fire only for files visited with
`origSrc` unset (direct children of the originally requested root): a
root-level `Default.png` goes to `launchImages` under its own name, while the
same filename visited in a recursively entered subdirectory (launch-logo
pattern does not match it, app thinning off) goes to `resourcesToCopy` under
its subdirectory-relative path, and a nested visit never touches `appIcons`
or `launchImages`. -/
theorem spec_C2_root_scoping (cfg : WalkerCfg) (analyzeHtml : String → String → List String)
    (res res2 : Result) (root sub dest1 dest2 : String)
    (hthin : cfg.useAppThinning = false)
    (hicon : cfg.appIconBase.bind (fun b => appIconTag b "Default.png") = none)
    (hif : testOpt cfg.ignoreFiles "Default.png" = false) :
    JsMap.get? (Walker.visitFile cfg analyzeHtml res (root ++ "/" ++ "Default.png") dest1
        "Default.png" root none none).launchImages "Default.png"
      = some (mkInfo "Default.png" (root ++ "/" ++ "Default.png") dest1) ∧
    JsMap.get? (Walker.visitFile cfg analyzeHtml res2
        ((root ++ "/" ++ sub) ++ "/" ++ "Default.png") dest2 "Default.png"
        (root ++ "/" ++ sub) (some root) none).resourcesToCopy (sub ++ "/" ++ "Default.png")
      = some (mkInfo "Default.png" ((root ++ "/" ++ sub) ++ "/" ++ "Default.png") dest2) ∧
    (Walker.visitFile cfg analyzeHtml res2 ((root ++ "/" ++ sub) ++ "/" ++ "Default.png")
        dest2 "Default.png" (root ++ "/" ++ sub) (some root) none).launchImages
      = res2.launchImages ∧
    (Walker.visitFile cfg analyzeHtml res2 ((root ++ "/" ++ sub) ++ "/" ++ "Default.png")
        dest2 "Default.png" (root ++ "/" ++ sub) (some root) none).appIcons
      = res2.appIcons := by
  refine ⟨?_, ?_,
    (visitFile_nonroot_frame cfg analyzeHtml res2 ((root ++ "/" ++ sub) ++ "/" ++ "Default.png")
      dest2 "Default.png" (root ++ "/" ++ sub) root none).2,
    (visitFile_nonroot_frame cfg analyzeHtml res2 ((root ++ "/" ++ sub) ++ "/" ++ "Default.png")
      dest2 "Default.png" (root ++ "/" ++ sub) root none).1⟩
  · unfold Walker.visitFile
    rw [hif]
    simp only [Bool.false_eq_true, if_false]
    rw [if_neg (by decide), if_neg (by decide), if_pos (by decide)]
    unfold pngCase
    rw [if_pos (show (none : Option String).isNone = true from rfl), hicon]
    simp [show launchImageTest "Default.png" = true from by decide,
      relPathOf_root root "Default.png", JsMap.get?_set]
  · unfold Walker.visitFile
    rw [hif]
    simp only [Bool.false_eq_true, if_false]
    rw [if_neg (by decide), if_neg (by decide), if_pos (by decide)]
    rw [pngCase_shared cfg res2 _ _ "Default.png" (some root) (fun h => Option.noConfusion h)]
    rw [sharedImage_noLogo cfg res2 _ _ "Default.png" (by decide)]
    rw [if_neg (by simp [hthin])]
    simp [relPathOf_nested root sub "Default.png", JsMap.get?_set]

theorem spec_C2_witness :
    JsMap.get? (Walker.visitFile cfgW analyzeNone Result.empty ("/r" ++ "/" ++ "Default.png")
        "/d/Default.png" "Default.png" "/r" none none).launchImages "Default.png"
      = some (mkInfo "Default.png" ("/r" ++ "/" ++ "Default.png") "/d/Default.png") ∧
    JsMap.get? (Walker.visitFile cfgW analyzeNone Result.empty
        (("/r" ++ "/" ++ "sub") ++ "/" ++ "Default.png") "/d/sub/Default.png" "Default.png"
        ("/r" ++ "/" ++ "sub") (some "/r") none).resourcesToCopy ("sub" ++ "/" ++ "Default.png")
      = some (mkInfo "Default.png" (("/r" ++ "/" ++ "sub") ++ "/" ++ "Default.png")
          "/d/sub/Default.png") ∧
    (Walker.visitFile cfgW analyzeNone Result.empty
        (("/r" ++ "/" ++ "sub") ++ "/" ++ "Default.png") "/d/sub/Default.png" "Default.png"
        ("/r" ++ "/" ++ "sub") (some "/r") none).launchImages = Result.empty.launchImages ∧
    (Walker.visitFile cfgW analyzeNone Result.empty
        (("/r" ++ "/" ++ "sub") ++ "/" ++ "Default.png") "/d/sub/Default.png" "Default.png"
        ("/r" ++ "/" ++ "sub") (some "/r") none).appIcons = Result.empty.appIcons :=
  spec_C2_root_scoping cfgW analyzeNone Result.empty Result.empty "/r" "sub"
    "/d/Default.png" "/d/sub/Default.png" rfl (by decide) rfl

/-- C6: the constructor derives the app-icon pattern from the configured
icon filename's stem with exactly its dots escaped (gather.js line 80); for
a stem free of other regex syntax characters the escaped stem is a sequence
of literal atoms, so the pattern matches the stem itself followed by an
arbitrary captured suffix and `.png`; a root-level png the pattern matches
lands in `appIcons` with the captured suffix stored as `tag`; for base name
`icon.png`, the file `icon-60@2x.png` captures the tag `-60@2x`. -/
theorem spec_C6_app_icon (tiappIcon st ex tg base : String) (useAppThinning : Bool)
    (ignoreDirs ignoreFiles : Option (String → Bool)) (cfg : WalkerCfg)
    (analyzeHtml : String → String → List String) (res : Result)
    (fromPath toPath name src : String) (pfx : Option String)
    (hfm : filenameMatch tiappIcon = some (st, ex))
    (hbase : ∀ c ∈ base.data, regexSyntaxChar c = false ∨ c = '.')
    (hnl : ∀ c ∈ tg.data, jsDot c = true)
    (hig : testOpt cfg.ignoreFiles name = false)
    (hpng : (filenameMatch name).map Prod.snd = some "png")
    (hbind : cfg.appIconBase.bind (fun b => appIconTag b name) = some tg) :
    (Walker.ofOptions tiappIcon useAppThinning ignoreDirs ignoreFiles).appIconBase = some st ∧
    literalAtoms (dotEscape base.data) = some base.data ∧
    appIconTag base (base ++ tg ++ ".png") = some tg ∧
    JsMap.get? (Walker.visitFile cfg analyzeHtml res fromPath toPath name src none pfx).appIcons
        (relPathOf fromPath src none pfx)
      = some { mkInfo name fromPath toPath with tag := some tg } ∧
    (Walker.ofOptions "icon.png" useAppThinning ignoreDirs ignoreFiles).appIconBase
      = some "icon" ∧
    appIconTag "icon" "icon-60@2x.png" = some "-60@2x" := by
  refine ⟨?_, regexPlain_dotEscape base.data hbase, appIconTag_append base tg hbase hnl, ?_,
    rfl, by decide⟩
  · unfold Walker.ofOptions
    rw [hfm]
    rfl
  · unfold Walker.visitFile
    rw [hig]
    simp only [Bool.false_eq_true, if_false]
    rw [if_neg (by simp [hpng]), if_neg (by simp [hpng]), if_pos hpng]
    unfold pngCase
    rw [if_pos (show (none : Option String).isNone = true from rfl), hbind]
    simp [JsMap.get?_set]

theorem spec_C6_witness :
    (Walker.ofOptions "icon.png" false none none).appIconBase = some "icon" ∧
    literalAtoms (dotEscape "icon".data) = some "icon".data ∧
    appIconTag "icon" ("icon" ++ "-60@2x" ++ ".png") = some "-60@2x" ∧
    JsMap.get? (Walker.visitFile cfgW analyzeNone Result.empty "/r/icon-60@2x.png"
        "/d/icon-60@2x.png" "icon-60@2x.png" "/r" none none).appIcons
        (relPathOf "/r/icon-60@2x.png" "/r" none none)
      = some { mkInfo "icon-60@2x.png" "/r/icon-60@2x.png" "/d/icon-60@2x.png" with
          tag := some "-60@2x" } ∧
    (Walker.ofOptions "icon.png" false none none).appIconBase = some "icon" ∧
    appIconTag "icon" "icon-60@2x.png" = some "-60@2x" :=
  spec_C6_app_icon "icon.png" "icon" "png" "-60@2x" "icon" false none none cfgW analyzeNone
    Result.empty "/r/icon-60@2x.png" "/d/icon-60@2x.png" "icon-60@2x.png" "/r" none
    (by decide) (by decide) (by decide) rfl (by decide) (by decide)

/-- C7: a png or jpg reaching the shared png/jpg rule and not matching the
launch-logo pattern goes to `imageAssets` when app thinning is on and the
relative path has no `.bundle/` segment, and to `resourcesToCopy` otherwise
(thinning off, or a bundle path regardless of the flag). -/
theorem spec_C7_thinning_bundle (cfg : WalkerCfg)
    (analyzeHtml : String → String → List String) (res : Result)
    (fromPath toPath name src : String) (origSrc pfx : Option String)
    (hig : testOpt cfg.ignoreFiles name = false)
    (hext : (filenameMatch name).map Prod.snd = some "jpg" ∨
      ((filenameMatch name).map Prod.snd = some "png" ∧
        (origSrc = none →
          cfg.appIconBase.bind (fun b => appIconTag b name) = none ∧
            launchImageTest name = false)))
    (hlogo : launchLogoMatch name = none) :
    Walker.visitFile cfg analyzeHtml res fromPath toPath name src origSrc pfx =
      if cfg.useAppThinning && !bundleTest (relPathOf fromPath src origSrc pfx) then
        { res with imageAssets := (JsMap.set res.imageAssets
            (relPathOf fromPath src origSrc pfx) (mkInfo name fromPath toPath)) }
      else
        { res with resourcesToCopy := (JsMap.set res.resourcesToCopy
            (relPathOf fromPath src origSrc pfx) (mkInfo name fromPath toPath)) } := by
  unfold Walker.visitFile
  rw [hig]
  simp only [Bool.false_eq_true, if_false]
  rcases hext with hjpg | ⟨hpng, hroot⟩
  · rw [if_neg (by simp [hjpg]), if_neg (by simp [hjpg]), if_neg (by simp [hjpg]),
      if_pos hjpg]
    exact sharedImage_noLogo cfg res _ _ name hlogo
  · rw [if_neg (by simp [hpng]), if_neg (by simp [hpng]), if_pos hpng]
    rw [pngCase_shared cfg res _ _ name origSrc hroot]
    exact sharedImage_noLogo cfg res _ _ name hlogo

theorem spec_C7_witness :
    Walker.visitFile cfgThin analyzeNone Result.empty "/r/photo.jpg" "/d/photo.jpg"
        "photo.jpg" "/r" none none =
      if cfgThin.useAppThinning && !bundleTest (relPathOf "/r/photo.jpg" "/r" none none) then
        { Result.empty with imageAssets := (JsMap.set Result.empty.imageAssets
            (relPathOf "/r/photo.jpg" "/r" none none)
            (mkInfo "photo.jpg" "/r/photo.jpg" "/d/photo.jpg")) }
      else
        { Result.empty with resourcesToCopy := (JsMap.set Result.empty.resourcesToCopy
            (relPathOf "/r/photo.jpg" "/r" none none)
            (mkInfo "photo.jpg" "/r/photo.jpg" "/d/photo.jpg")) } :=
  spec_C7_thinning_bundle cfgThin analyzeNone Result.empty "/r/photo.jpg" "/d/photo.jpg"
    "photo.jpg" "/r" none none rfl (Or.inl (by decide)) (by decide)

/-- C8: a png or jpg whose name matches the launch-logo pattern reaches
`launchLogos` at any traversal depth (once, for a root-level png, the
root-only icon and launch-image tests have passed it over, as they do for
`LaunchLogo` names under any icon base that does not claim them), with the
captured scale and device stored; `LaunchLogo@2x~ipad.png` captures scale
`2` and device `ipad`. -/
theorem spec_C8_launch_logo (cfg : WalkerCfg)
    (analyzeHtml : String → String → List String) (res : Result)
    (fromPath toPath name src : String) (origSrc pfx : Option String)
    (sc dev : Option String)
    (hig : testOpt cfg.ignoreFiles name = false)
    (hext : (filenameMatch name).map Prod.snd = some "jpg" ∨
      ((filenameMatch name).map Prod.snd = some "png" ∧
        (origSrc = none →
          cfg.appIconBase.bind (fun b => appIconTag b name) = none ∧
            launchImageTest name = false)))
    (hlogo : launchLogoMatch name = some (sc, dev)) :
    JsMap.get? (Walker.visitFile cfg analyzeHtml res fromPath toPath name src
        origSrc pfx).launchLogos (relPathOf fromPath src origSrc pfx)
      = some { mkInfo name fromPath toPath with scale := sc, device := dev } ∧
    launchLogoMatch "LaunchLogo@2x~ipad.png" = some (some "2", some "ipad") ∧
    launchImageTest "LaunchLogo@2x~ipad.png" = false := by
  refine ⟨?_, by decide, by decide⟩
  unfold Walker.visitFile
  rw [hig]
  simp only [Bool.false_eq_true, if_false]
  rcases hext with hjpg | ⟨hpng, hroot⟩
  · rw [if_neg (by simp [hjpg]), if_neg (by simp [hjpg]), if_neg (by simp [hjpg]),
      if_pos hjpg]
    rw [sharedImage_logo cfg res _ _ name sc dev hlogo]
    simp [JsMap.get?_set]
  · rw [if_neg (by simp [hpng]), if_neg (by simp [hpng]), if_pos hpng]
    rw [pngCase_shared cfg res _ _ name origSrc hroot]
    rw [sharedImage_logo cfg res _ _ name sc dev hlogo]
    simp [JsMap.get?_set]

theorem spec_C8_witness :
    JsMap.get? (Walker.visitFile cfgW analyzeNone Result.empty
        "/r/sub/LaunchLogo@2x~ipad.png" "/d/sub/LaunchLogo@2x~ipad.png"
        "LaunchLogo@2x~ipad.png" "/r/sub" (some "/r") none).launchLogos
        (relPathOf "/r/sub/LaunchLogo@2x~ipad.png" "/r/sub" (some "/r") none)
      = some { mkInfo "LaunchLogo@2x~ipad.png" "/r/sub/LaunchLogo@2x~ipad.png"
          "/d/sub/LaunchLogo@2x~ipad.png" with scale := some "2", device := some "ipad" } ∧
    launchLogoMatch "LaunchLogo@2x~ipad.png" = some (some "2", some "ipad") ∧
    launchImageTest "LaunchLogo@2x~ipad.png" = false :=
  spec_C8_launch_logo cfgW analyzeNone Result.empty "/r/sub/LaunchLogo@2x~ipad.png"
    "/d/sub/LaunchLogo@2x~ipad.png" "LaunchLogo@2x~ipad.png" "/r/sub" (some "/r") none
    (some "2") (some "ipad") rfl
    (Or.inr ⟨by decide, fun h => Option.noConfusion h⟩) (by decide)

/-- C9 counterexample: the walker stores the extension exactly as written in
the filename — `photo.PNG` is filed (under the default bucket, since `PNG`
matches no switch case) with `ext = "PNG"`, which is not the lowercase
string `png`. -/
theorem spec_C9_counterexample :
    JsMap.get? (Walker.visitFile cfgW analyzeNone Result.empty "/r/photo.PNG" "/d/photo.PNG"
        "photo.PNG" "/r" none none).resourcesToCopy "photo.PNG"
      = some (mkInfo "photo.PNG" "/r/photo.PNG" "/d/photo.PNG") ∧
    (mkInfo "photo.PNG" "/r/photo.PNG" "/d/photo.PNG").ext = some "PNG" ∧
    "PNG".data.map Char.toLower = "png".data ∧
    "PNG" ≠ "png" := by
  refine ⟨?_, by decide, by decide, by decide⟩
  decide

/-- C9 amended: for every filename, the record's `extension` field is
present exactly when the filename splits at its last dot into a stem free of
line terminators and a nonempty final segment of word characters; the
extension is then that final segment exactly as it appears in the filename
(case preserved, not lowercased) and the `name` field is the stem; otherwise
— no dot, a non-word character in the after-dot part, or a line terminator
before it — the extension is absent and the `name` field is the whole
filename. -/
theorem spec_C9_extension_amended (name fromPath toPath : String) :
    (∃ stem e : String, name = stem ++ "." ++ e ∧ e ≠ "" ∧
        (∀ c ∈ e.data, isWordChar c = true) ∧ (∀ c ∈ stem.data, jsDot c = true) ∧
        mkInfo name fromPath toPath =
          { name := stem, ext := some e, src := fromPath, dest := toPath,
            tag := none, scale := none, device := none }) ∨
    ((¬ ∃ stem e : String, name = stem ++ "." ++ e ∧ e ≠ "" ∧
        (∀ c ∈ e.data, isWordChar c = true) ∧ (∀ c ∈ stem.data, jsDot c = true)) ∧
      mkInfo name fromPath toPath =
        { name := name, ext := none, src := fromPath, dest := toPath,
          tag := none, scale := none, device := none }) := by
  cases hfm : filenameMatch name with
  | some pr =>
    obtain ⟨st, ex⟩ := pr
    obtain ⟨h1, h2, h3, h4⟩ := filenameMatch_sound name st ex hfm
    refine Or.inl ⟨st, ex, h1, h2, h3, h4, ?_⟩
    unfold mkInfo
    rw [hfm]
  | none =>
    refine Or.inr ⟨?_, ?_⟩
    · rintro ⟨stem, e, h1, h2, h3, h4⟩
      rw [h1, filenameMatch_split stem e h2 h3 h4] at hfm
      exact Option.noConfusion hfm
    · unfold mkInfo
      rw [hfm]
